import Mathlib

/-!
Verification of the arbitrage detection core of the 9combo scanner
(src/arb_scanner.py).  Odds and stakes are modelled as rationals; the
Python float computations are pure field arithmetic, modelled exactly.
-/

namespace ArbScanner

/-- Table EXCHANGE_COMMISSION from the source: fixed commission rate per
exchange bookmaker key. -/
def EXCHANGE_COMMISSION : List (String × ℚ) :=
  [("betfair_ex_uk", 5/100),
   ("betfair_ex_eu", 5/100),
   ("betfair_ex_au", 5/100),
   ("smarkets", 2/100),
   ("matchbook", 15/1000),
   ("betdaq", 5/100)]

/-- Dictionary lookup with default 0, modelling
EXCHANGE_COMMISSION.get(bookmaker_key, 0.0). -/
def lookupRate : List (String × ℚ) → String → ℚ
  | [], _ => 0
  | (k, v) :: rest, bk => if k = bk then v else lookupRate rest bk

/-- Commission rate looked up for a bookmaker key (0 when absent). -/
def commissionRate (bookmaker_key : String) : ℚ :=
  lookupRate EXCHANGE_COMMISSION bookmaker_key

/-- adjust_odds_for_commission from the source: returns the odds unchanged
when the commission is 0, otherwise 1 + (odds - 1) * (1 - commission). -/
def adjust_odds_for_commission (odds : ℚ) (bookmaker_key : String) : ℚ :=
  let commission := commissionRate bookmaker_key
  if commission = 0 then odds
  else 1 + (odds - 1) * (1 - commission)

/-- calc_arb_equal_payout from the source: the pairwise equal-payout
arbitrage calculator.  Returns (stake_a, stake_b, total_stake) or none. -/
def calc_arb_equal_payout (odds_a odds_b : ℚ)
    (bookmaker_a bookmaker_b : String) : Option (ℚ × ℚ × ℚ) :=
  if odds_a ≤ 1 ∨ odds_b ≤ 1 then none
  else
    let effective_odds_a := adjust_odds_for_commission odds_a bookmaker_a
    let effective_odds_b := adjust_odds_for_commission odds_b bookmaker_b
    let inv := 1 / effective_odds_a + 1 / effective_odds_b
    if 1 ≤ inv then none
    else
      let stake_a := 100 / effective_odds_a / inv
      let stake_b := 100 / effective_odds_b / inv
      some (stake_a, stake_b, stake_a + stake_b)

/-- Effective odds list used by calc_nway_arb and by the n-way profit
function: commission-adjusted when a bookmaker key list of matching
length is supplied, the raw odds otherwise. -/
def effOdds (odds_list : List ℚ) (bookmaker_keys : List String) : List ℚ :=
  if bookmaker_keys ≠ [] ∧ bookmaker_keys.length = odds_list.length then
    (odds_list.zip bookmaker_keys).map
      (fun p => adjust_odds_for_commission p.1 p.2)
  else odds_list

/-- Sum of reciprocals of a list of effective odds. -/
def inv_sum (eff : List ℚ) : ℚ := (eff.map (fun o => 1 / o)).sum

/-- calc_nway_arb from the source: fails when the odds list is empty or
contains a value at most 1, or when the reciprocal sum of the effective
odds reaches 1; otherwise returns the stake list and its sum.  An empty
bookmaker key list models the Python default of None. -/
def calc_nway_arb (odds_list : List ℚ) (bookmaker_keys : List String) :
    Option (List ℚ × ℚ) :=
  if odds_list = [] ∨ ∃ o ∈ odds_list, o ≤ 1 then none
  else
    let eff := effOdds odds_list bookmaker_keys
    let s := inv_sum eff
    if 1 ≤ s then none
    else
      let stakes := eff.map (fun o => 100 / (o * s))
      some (stakes, stakes.sum)

/-- The 2-way profit percentage function of the source, a pure recomputation
from the commission-adjusted odds. -/
def arb_profit_pct (odds_a odds_b : ℚ) (bookmaker_a bookmaker_b : String) : ℚ :=
  100 * (1 / (1 / adjust_odds_for_commission odds_a bookmaker_a
      + 1 / adjust_odds_for_commission odds_b bookmaker_b) - 1)

/-- The n-way profit percentage function of the source. -/
def nway_arb_profit_pct (odds_list : List ℚ) (bookmaker_keys : List String) : ℚ :=
  100 * (1 / inv_sum (effOdds odds_list bookmaker_keys) - 1)

/- ### Basic facts about the commission model -/

lemma lookupRate_cases (l : List (String × ℚ)) (bk : String) :
    lookupRate l bk = 0 ∨ ∃ p ∈ l, lookupRate l bk = p.2 := by
  induction l with
  | nil => left; rfl
  | cons hd tl ih =>
    by_cases h : hd.1 = bk
    · right
      refine ⟨hd, List.mem_cons_self _ _, ?_⟩
      obtain ⟨k, v⟩ := hd
      simp only [lookupRate]
      simp_all
    · obtain ⟨k, v⟩ := hd
      simp only [lookupRate, if_neg (by simpa using h)]
      rcases ih with h0 | ⟨p, hp, he⟩
      · left; exact h0
      · right; exact ⟨p, List.mem_cons_of_mem _ hp, he⟩

lemma exchange_rates_bounded :
    ∀ p ∈ EXCHANGE_COMMISSION, 0 ≤ p.2 ∧ p.2 < 1 := by
  intro p hp
  simp only [EXCHANGE_COMMISSION, List.mem_cons, List.not_mem_nil, or_false] at hp
  rcases hp with rfl | rfl | rfl | rfl | rfl | rfl <;> norm_num

lemma commissionRate_nonneg (bk : String) : 0 ≤ commissionRate bk := by
  rcases lookupRate_cases EXCHANGE_COMMISSION bk with h | ⟨p, hp, he⟩
  · rw [commissionRate, h]
  · rw [commissionRate, he]
    exact (exchange_rates_bounded p hp).1

lemma commissionRate_lt_one (bk : String) : commissionRate bk < 1 := by
  rcases lookupRate_cases EXCHANGE_COMMISSION bk with h | ⟨p, hp, he⟩
  · rw [commissionRate, h]; norm_num
  · rw [commissionRate, he]
    exact (exchange_rates_bounded p hp).2

/-- The branch split in adjust_odds_for_commission is equivalent to always
applying the affine formula. -/
lemma adjust_eq_formula (odds : ℚ) (bk : String) :
    adjust_odds_for_commission odds bk
      = 1 + (odds - 1) * (1 - commissionRate bk) := by
  by_cases h : commissionRate bk = 0
  · simp [adjust_odds_for_commission, if_pos h, h]
  · simp only [adjust_odds_for_commission, if_neg h]

lemma adjust_gt_one {odds : ℚ} (h : 1 < odds) (bk : String) :
    1 < adjust_odds_for_commission odds bk := by
  rw [adjust_eq_formula]
  have h1 := commissionRate_lt_one bk
  nlinarith

lemma adjust_pos {odds : ℚ} (h : 1 < odds) (bk : String) :
    0 < adjust_odds_for_commission odds bk :=
  lt_trans one_pos (adjust_gt_one h bk)

/- ### Facts about the effective odds list -/

lemma effOdds_length (odds : List ℚ) (keys : List String) :
    (effOdds odds keys).length = odds.length := by
  unfold effOdds
  split
  · next h => simp [List.length_zip, h.2]
  · rfl

lemma effOdds_gt_one {odds : List ℚ} {keys : List String}
    (h : ∀ o ∈ odds, 1 < o) : ∀ e ∈ effOdds odds keys, 1 < e := by
  intro e he
  unfold effOdds at he
  split at he
  · rw [List.mem_map] at he
    obtain ⟨p, hp, rfl⟩ := he
    exact adjust_gt_one (h p.1 (List.of_mem_zip hp).1) p.2
  · exact h e he

lemma inv_sum_pos {eff : List ℚ} (hne : eff ≠ [])
    (h : ∀ e ∈ eff, 1 < e) : 0 < inv_sum eff := by
  unfold inv_sum
  apply List.sum_pos
  · intro x hx
    rw [List.mem_map] at hx
    obtain ⟨e, he, rfl⟩ := hx
    have := h e he
    positivity
  · simpa using hne

lemma zip_map_self {α β : Type} (f : α → β) (l : List α) :
    ∀ p ∈ (l.map f).zip l, p.1 = f p.2 := by
  induction l with
  | nil => intro p hp; simp at hp
  | cons hd tl ih =>
    intro p hp
    rcases List.mem_cons.mp hp with rfl | hp
    · rfl
    · exact ih p hp

lemma lookupRate_of_not_mem {l : List (String × ℚ)} {bk : String}
    (h : ∀ p ∈ l, p.1 ≠ bk) : lookupRate l bk = 0 := by
  induction l with
  | nil => rfl
  | cons hd tl ih =>
    obtain ⟨k, v⟩ := hd
    simp only [lookupRate]
    rw [if_neg (h (k, v) (List.mem_cons_self _ _)), ih]
    intro p hp
    exact h p (List.mem_cons_of_mem _ hp)

/- ### Claim theorems for the calculators -/

/-- C1: calc_arb_equal_payout returns no result exactly when odds_a ≤ 1 or
odds_b ≤ 1 or the reciprocal sum of the commission-adjusted odds reaches 1;
on success the stakes are 100/(eff_a·s) and 100/(eff_b·s), the reported
total is their sum, and the two payouts stake·eff are equal. -/
theorem calc_arb_equal_payout_correct (a b : ℚ) (ka kb : String) :
    (calc_arb_equal_payout a b ka kb = none ↔
      a ≤ 1 ∨ b ≤ 1 ∨
        1 ≤ 1 / adjust_odds_for_commission a ka
          + 1 / adjust_odds_for_commission b kb) ∧
    (∀ sA sB t, calc_arb_equal_payout a b ka kb = some (sA, sB, t) →
      sA = 100 / (adjust_odds_for_commission a ka *
            (1 / adjust_odds_for_commission a ka
              + 1 / adjust_odds_for_commission b kb)) ∧
      sB = 100 / (adjust_odds_for_commission b kb *
            (1 / adjust_odds_for_commission a ka
              + 1 / adjust_odds_for_commission b kb)) ∧
      t = sA + sB ∧
      sA * adjust_odds_for_commission a ka
        = sB * adjust_odds_for_commission b kb) := by
  by_cases h1 : a ≤ 1 ∨ b ≤ 1
  · have hval : calc_arb_equal_payout a b ka kb = none := by
      simp only [calc_arb_equal_payout, if_pos h1]
    constructor
    · rw [hval]
      refine iff_of_true rfl ?_
      tauto
    · intro sA sB t h
      rw [hval] at h
      exact absurd h (by simp)
  · have h1a : 1 < a := not_le.mp fun hh => h1 (Or.inl hh)
    have h1b : 1 < b := not_le.mp fun hh => h1 (Or.inr hh)
    by_cases h2 : 1 ≤ 1 / adjust_odds_for_commission a ka
        + 1 / adjust_odds_for_commission b kb
    · have hval : calc_arb_equal_payout a b ka kb = none := by
        simp only [calc_arb_equal_payout, if_neg h1]
        rw [if_pos h2]
      constructor
      · rw [hval]
        exact iff_of_true rfl (Or.inr (Or.inr h2))
      · intro sA sB t h
        rw [hval] at h
        exact absurd h (by simp)
    · have heagt : 1 < adjust_odds_for_commission a ka := adjust_gt_one h1a ka
      have hebgt : 1 < adjust_odds_for_commission b kb := adjust_gt_one h1b kb
      have heane : adjust_odds_for_commission a ka ≠ 0 := by linarith
      have hebne : adjust_odds_for_commission b kb ≠ 0 := by linarith
      have hval : calc_arb_equal_payout a b ka kb =
          some (100 / adjust_odds_for_commission a ka /
                  (1 / adjust_odds_for_commission a ka
                    + 1 / adjust_odds_for_commission b kb),
                100 / adjust_odds_for_commission b kb /
                  (1 / adjust_odds_for_commission a ka
                    + 1 / adjust_odds_for_commission b kb),
                100 / adjust_odds_for_commission a ka /
                  (1 / adjust_odds_for_commission a ka
                    + 1 / adjust_odds_for_commission b kb)
                + 100 / adjust_odds_for_commission b kb /
                  (1 / adjust_odds_for_commission a ka
                    + 1 / adjust_odds_for_commission b kb)) := by
        simp only [calc_arb_equal_payout, if_neg h1]
        rw [if_neg h2]
      constructor
      · rw [hval]
        refine iff_of_false (by simp) ?_
        rintro (h | h | h)
        · exact absurd h (not_le.mpr h1a)
        · exact absurd h (not_le.mpr h1b)
        · exact absurd h h2
      · intro sA sB t h
        rw [hval] at h
        simp only [Option.some.injEq, Prod.mk.injEq] at h
        obtain ⟨hsA, hsB, ht⟩ := h
        refine ⟨?_, ?_, ?_, ?_⟩
        · rw [← hsA, div_div]
        · rw [← hsB, div_div]
        · rw [← ht, ← hsA, ← hsB]
        · rw [← hsA, ← hsB]
          field_simp
          ring

/-- C1 witness: the theorem applied to the concrete pair 2.10 / 2.05 with no
commission, whose successful output is (4100/83, 4200/83, 100). -/
theorem calc_arb_equal_payout_correct_witness :
    (4100/83 : ℚ) = 100 / (adjust_odds_for_commission (21/10) "" *
          (1 / adjust_odds_for_commission (21/10) ""
            + 1 / adjust_odds_for_commission (41/20) "")) ∧
    (4200/83 : ℚ) = 100 / (adjust_odds_for_commission (41/20) "" *
          (1 / adjust_odds_for_commission (21/10) ""
            + 1 / adjust_odds_for_commission (41/20) "")) ∧
    (100 : ℚ) = 4100/83 + 4200/83 ∧
    (4100/83 : ℚ) * adjust_odds_for_commission (21/10) ""
      = (4200/83 : ℚ) * adjust_odds_for_commission (41/20) "" :=
  (calc_arb_equal_payout_correct (21/10) (41/20) "" "").2 (4100/83) (4200/83) 100
    (by
      have hc : commissionRate "" = 0 := by
        simp [commissionRate, lookupRate, EXCHANGE_COMMISSION]
      norm_num [calc_arb_equal_payout, adjust_odds_for_commission, hc])

/-- C2: for a non-empty odds list with a matching key list, calc_nway_arb
fails exactly when some odds value is at most 1 or the reciprocal sum s of
the effective odds reaches 1; on success stake_i = 100/(eff_i·s), each
product stake_i·eff_i equals 100/s, and the reported total is the stake
sum. -/
theorem calc_nway_arb_correct (odds : List ℚ) (keys : List String)
    (h1 : odds ≠ []) (h2 : keys.length = odds.length) :
    (calc_nway_arb odds keys = none ↔
      (∃ o ∈ odds, o ≤ 1) ∨ 1 ≤ inv_sum (effOdds odds keys)) ∧
    (∀ stakes total, calc_nway_arb odds keys = some (stakes, total) →
      stakes = (effOdds odds keys).map
          (fun o => 100 / (o * inv_sum (effOdds odds keys))) ∧
      (∀ p ∈ stakes.zip (effOdds odds keys),
          p.1 * p.2 = 100 / inv_sum (effOdds odds keys)) ∧
      total = stakes.sum) := by
  by_cases hany : ∃ o ∈ odds, o ≤ 1
  · have hval : calc_nway_arb odds keys = none := by
      simp only [calc_nway_arb, if_pos (Or.inr hany)]
    constructor
    · rw [hval]
      exact iff_of_true rfl (Or.inl hany)
    · intro stakes total h
      rw [hval] at h
      exact absurd h (by simp)
  · have hall : ∀ o ∈ odds, 1 < o := by
      intro o ho
      by_contra hle
      exact hany ⟨o, ho, not_lt.mp hle⟩
    have hcf : ¬ (odds = [] ∨ ∃ o ∈ odds, o ≤ 1) := by
      rintro (h | h)
      · exact h1 h
      · exact hany h
    have heffgt := @effOdds_gt_one odds keys hall
    have heffne : effOdds odds keys ≠ [] := by
      intro hcon
      apply h1
      have := effOdds_length odds keys
      rw [hcon] at this
      exact List.length_eq_zero.mp this.symm
    have hspos : 0 < inv_sum (effOdds odds keys) := inv_sum_pos heffne heffgt
    by_cases hs : 1 ≤ inv_sum (effOdds odds keys)
    · have hval : calc_nway_arb odds keys = none := by
        simp only [calc_nway_arb, if_neg hcf]
        rw [if_pos hs]
      constructor
      · rw [hval]
        exact iff_of_true rfl (Or.inr hs)
      · intro stakes total h
        rw [hval] at h
        exact absurd h (by simp)
    · have hval : calc_nway_arb odds keys =
          some ((effOdds odds keys).map
              (fun o => 100 / (o * inv_sum (effOdds odds keys))),
            ((effOdds odds keys).map
              (fun o => 100 / (o * inv_sum (effOdds odds keys)))).sum) := by
        simp only [calc_nway_arb, if_neg hcf]
        rw [if_neg hs]
      constructor
      · rw [hval]
        refine iff_of_false (by simp) ?_
        rintro (h | h)
        · exact absurd h hany
        · exact absurd h hs
      · intro stakes total h
        rw [hval] at h
        simp only [Option.some.injEq, Prod.mk.injEq] at h
        obtain ⟨hst, htot⟩ := h
        refine ⟨hst.symm, ?_, ?_⟩
        · intro p hp
          rw [← hst] at hp
          have hfst := zip_map_self (fun o => 100 / (o * inv_sum (effOdds odds keys)))
            (effOdds odds keys) p hp
          have hsnd : p.2 ∈ effOdds odds keys := (List.of_mem_zip hp).2
          have hegt : 1 < p.2 := heffgt p.2 hsnd
          have hene : p.2 ≠ 0 := by linarith
          rw [hfst]
          field_simp
          ring
        · rw [← htot, ← hst]

/-- C2 witness: the theorem applied to the 5-outcome odds list of the spec
scenario, all quotes commission-free. -/
theorem calc_nway_arb_correct_witness :
    calc_nway_arb [2, 4, 5, 100] ["", "", "", ""] = none ↔
      (∃ o ∈ ([2, 4, 5, 100] : List ℚ), o ≤ 1) ∨
        1 ≤ inv_sum (effOdds [2, 4, 5, 100] ["", "", "", ""]) :=
  (calc_nway_arb_correct [2, 4, 5, 100] ["", "", "", ""] (by simp) (by simp)).1

/-- C4: the n-way calculator on a two-element odds and key list agrees with
the pairwise calculator: both fail together, and on success the stake pair
and the total coincide. -/
theorem calc_nway_arb_two_agrees_pairwise (a b : ℚ) (ka kb : String) :
    calc_nway_arb [a, b] [ka, kb] =
      (calc_arb_equal_payout a b ka kb).map (fun r => ([r.1, r.2.1], r.2.2)) := by
  have heff : effOdds [a, b] [ka, kb] =
      [adjust_odds_for_commission a ka, adjust_odds_for_commission b kb] := by
    simp [effOdds]
  by_cases h1 : a ≤ 1 ∨ b ≤ 1
  · have hc : ([a, b] : List ℚ) = [] ∨ ∃ o ∈ ([a, b] : List ℚ), o ≤ 1 := by
      right
      rcases h1 with h | h
      · exact ⟨a, by simp, h⟩
      · exact ⟨b, by simp, h⟩
    simp only [calc_nway_arb, if_pos hc, calc_arb_equal_payout, if_pos h1]
    rfl
  · have hc : ¬ (([a, b] : List ℚ) = [] ∨ ∃ o ∈ ([a, b] : List ℚ), o ≤ 1) := by
      push_neg at h1
      rintro (h | ⟨o, ho, hle⟩)
      · simp at h
      · rcases List.mem_cons.mp ho with rfl | ho
        · exact absurd hle (not_le.mpr h1.1)
        · rcases List.mem_cons.mp ho with rfl | hcon
          · exact absurd hle (not_le.mpr h1.2)
          · simp at hcon
    have hinv : inv_sum (effOdds [a, b] [ka, kb]) =
        1 / adjust_odds_for_commission a ka + 1 / adjust_odds_for_commission b kb := by
      rw [heff]
      simp [inv_sum]
    by_cases h2 : 1 ≤ 1 / adjust_odds_for_commission a ka
        + 1 / adjust_odds_for_commission b kb
    · have hl : calc_nway_arb [a, b] [ka, kb] = none := by
        simp only [calc_nway_arb, if_neg hc]
        rw [hinv, if_pos h2]
      have hr : calc_arb_equal_payout a b ka kb = none := by
        simp only [calc_arb_equal_payout, if_neg h1]
        rw [if_pos h2]
      rw [hl, hr]
      rfl
    · have hl : calc_nway_arb [a, b] [ka, kb] =
          some ((effOdds [a, b] [ka, kb]).map
              (fun o => 100 / (o * inv_sum (effOdds [a, b] [ka, kb]))),
            ((effOdds [a, b] [ka, kb]).map
              (fun o => 100 / (o * inv_sum (effOdds [a, b] [ka, kb])))).sum) := by
        simp only [calc_nway_arb, if_neg hc]
        rw [if_neg (hinv ▸ h2)]
      have hr : calc_arb_equal_payout a b ka kb =
          some (100 / adjust_odds_for_commission a ka /
                  (1 / adjust_odds_for_commission a ka
                    + 1 / adjust_odds_for_commission b kb),
                100 / adjust_odds_for_commission b kb /
                  (1 / adjust_odds_for_commission a ka
                    + 1 / adjust_odds_for_commission b kb),
                100 / adjust_odds_for_commission a ka /
                  (1 / adjust_odds_for_commission a ka
                    + 1 / adjust_odds_for_commission b kb)
                + 100 / adjust_odds_for_commission b kb /
                  (1 / adjust_odds_for_commission a ka
                    + 1 / adjust_odds_for_commission b kb)) := by
        simp only [calc_arb_equal_payout, if_neg h1]
        rw [if_neg h2]
      rw [hl, hr]
      simp only [Option.map_some', heff]
      simp [inv_sum, div_div]

/-- C5: the commission adjustment equals 1 + (odds-1)(1-c) for the recorded
rate c of the key, any key with no table entry (the empty key included) has
rate 0 and leaves the odds unchanged, and every recorded rate lies in
[0, 1). -/
theorem adjust_odds_for_commission_correct (o : ℚ) (bk : String) :
    adjust_odds_for_commission o bk = 1 + (o - 1) * (1 - commissionRate bk) ∧
    ((∀ p ∈ EXCHANGE_COMMISSION, p.1 ≠ bk) →
      commissionRate bk = 0 ∧ adjust_odds_for_commission o bk = o) ∧
    commissionRate "" = 0 ∧ adjust_odds_for_commission o "" = o ∧
    (∀ p ∈ EXCHANGE_COMMISSION, 0 ≤ p.2 ∧ p.2 < 1) := by
  have hzero : ∀ k : String, commissionRate k = 0 → adjust_odds_for_commission o k = o := by
    intro k hk
    simp [adjust_odds_for_commission, hk]
  have hempty : commissionRate "" = 0 := by
    simp [commissionRate, lookupRate, EXCHANGE_COMMISSION]
  refine ⟨adjust_eq_formula o bk, ?_, hempty, hzero "" hempty, exchange_rates_bounded⟩
  intro hnm
  have h0 : commissionRate bk = 0 := lookupRate_of_not_mem hnm
  exact ⟨h0, hzero bk h0⟩

/-- C5 witness: the theorem applied to odds 5/2 and the unknown key "foo",
which has no table entry, so the odds pass through unchanged. -/
theorem adjust_odds_for_commission_correct_witness :
    commissionRate "foo" = 0 ∧ adjust_odds_for_commission (5/2) "foo" = 5/2 :=
  (adjust_odds_for_commission_correct (5/2) "foo").2.1
    (by intro p hp
        simp only [EXCHANGE_COMMISSION, List.mem_cons, List.not_mem_nil, or_false] at hp
        rcases hp with rfl | rfl | rfl | rfl | rfl | rfl <;> simp)

/-- C8: with odds above 1, a strictly larger commission rate gives strictly
smaller effective odds, and the 2-way profit percentage against a fixed
second leg strictly decreases. -/
theorem commission_monotone (o : ℚ) (ho : 1 < o) (k1 k2 : String)
    (hc : commissionRate k1 < commissionRate k2)
    (b : ℚ) (hb : 1 < b) (kb : String) :
    adjust_odds_for_commission o k2 < adjust_odds_for_commission o k1 ∧
    arb_profit_pct o b k2 kb < arb_profit_pct o b k1 kb := by
  have h2lt := commissionRate_lt_one k2
  have e1gt : 1 < adjust_odds_for_commission o k1 := adjust_gt_one ho k1
  have e2gt : 1 < adjust_odds_for_commission o k2 := adjust_gt_one ho k2
  have hlt : adjust_odds_for_commission o k2 < adjust_odds_for_commission o k1 := by
    rw [adjust_eq_formula, adjust_eq_formula]
    nlinarith
  refine ⟨hlt, ?_⟩
  have ebgt : 1 < adjust_odds_for_commission b kb := adjust_gt_one hb kb
  have hebpos : 0 < 1 / adjust_odds_for_commission b kb :=
    one_div_pos.mpr (lt_trans one_pos ebgt)
  have hrecip : 1 / adjust_odds_for_commission o k1
      < 1 / adjust_odds_for_commission o k2 :=
    one_div_lt_one_div_of_lt (lt_trans one_pos e2gt) hlt
  have hpos1 : 0 < 1 / adjust_odds_for_commission o k1
      + 1 / adjust_odds_for_commission b kb :=
    add_pos (one_div_pos.mpr (lt_trans one_pos e1gt)) hebpos
  have hinvlt : 1 / adjust_odds_for_commission o k1
        + 1 / adjust_odds_for_commission b kb
      < 1 / adjust_odds_for_commission o k2
        + 1 / adjust_odds_for_commission b kb := by linarith
  have hfinal := one_div_lt_one_div_of_lt hpos1 hinvlt
  unfold arb_profit_pct
  linarith

/-- C8 witness: the theorem applied to odds 2 at the zero-commission empty
key versus the 2-percent smarkets key, against a fixed second leg at odds 2. -/
theorem commission_monotone_witness :
    adjust_odds_for_commission 2 "smarkets" < adjust_odds_for_commission 2 "" ∧
    arb_profit_pct 2 2 "smarkets" "" < arb_profit_pct 2 2 "" "" :=
  commission_monotone 2 (by norm_num) "" "smarkets"
    (by
      have ha : commissionRate "" = 0 := by
        simp [commissionRate, lookupRate, EXCHANGE_COMMISSION]
      have hb : commissionRate "smarkets" = 2/100 := by
        simp [commissionRate, lookupRate, EXCHANGE_COMMISSION]
      rw [ha, hb]
      norm_num)
    2 (by norm_num) ""

/-- C10: calc_nway_arb accepts a single-element odds list: for any odds
value above 1 and no bookmaker keys it succeeds with stake list [100] and
total 100, since the reciprocal sum is below 1. -/
theorem calc_nway_arb_single (o : ℚ) (ho : 1 < o) :
    calc_nway_arb [o] [] = some ([100], 100) := by
  have hno : ¬ o ≤ 1 := not_le.mpr ho
  have hpos : (0 : ℚ) < o := lt_trans one_pos ho
  have hne : o ≠ 0 := ne_of_gt hpos
  have hc : ¬ (([o] : List ℚ) = [] ∨ ∃ x ∈ ([o] : List ℚ), x ≤ 1) := by
    rintro (h | ⟨x, hx, hle⟩)
    · simp at h
    · rcases List.mem_cons.mp hx with rfl | hcon
      · exact hno hle
      · simp at hcon
  have heff : effOdds [o] [] = [o] := by simp [effOdds]
  have hinv : inv_sum (effOdds [o] []) = 1 / o := by simp [heff, inv_sum]
  have hlt : ¬ 1 ≤ inv_sum (effOdds [o] []) := by
    rw [hinv, not_le, div_lt_one hpos]
    exact ho
  simp only [calc_nway_arb, if_neg hc]
  rw [if_neg hlt, hinv, heff]
  simp only [List.map_cons, List.map_nil, List.sum_cons, List.sum_nil, Option.some.injEq,
    Prod.mk.injEq]
  rw [mul_one_div, div_self hne]
  norm_num

/-- C10 witness: the theorem applied at odds 2. -/
theorem calc_nway_arb_single_witness :
    calc_nway_arb [2] [] = some ([100], 100) :=
  calc_nway_arb_single 2 (by norm_num)

/- ### Data model of the odds feed -/

/-- Executable model of the Python str.strip() used on outcome names. -/
def pyStrip (s : String) : String :=
  String.mk (((s.data.dropWhile Char.isWhitespace).reverse.dropWhile
    Char.isWhitespace).reverse)

/-- Executable model of the Python str.lower() used on names and keys. -/
def pyLower (s : String) : String := String.mk (s.data.map Char.toLower)

/-- One outcome record of a market, fields optional as in the JSON feed. -/
structure Outcome where
  name : Option String := none
  price : Option ℚ := none
  point : Option ℚ := none
  market_desc : Option String := none
deriving DecidableEq, Repr

/-- One market block of a bookmaker. -/
structure Market where
  key : String
  outcomes : List Outcome
deriving DecidableEq, Repr

/-- One bookmaker block of an event. -/
structure Bookmaker where
  key : String
  title : String
  last_update : Option String := none
  markets : List Market
deriving DecidableEq, Repr

/-- One event of the odds feed. -/
structure Event where
  id : String
  home_team : String
  away_team : String
  commence_time : String
  bookmakers : List Bookmaker
deriving DecidableEq, Repr

/- ### Bookmaker filter of the source -/

def BLACKLIST_BOOKMAKERS : List String := ["paddypower", "paddy_power"]

def NON_BETFAIR_EXCHANGES : List String :=
  ["betopenly", "kalshi", "novig", "polymarket", "prophetx", "smarkets", "matchbook"]

def BETFAIR_EXCHANGES : List String :=
  ["betfair_ex_uk", "betfair_ex_eu", "betfair_ex_au"]

def UNRELIABLE_BOOKMAKERS : List String := ["williamhill", "unibet_uk"]

def TRUSTED_BOOKMAKERS : List String :=
  ["bet365", "betway", "unibet", "bwin", "betsson", "pinnacle", "marathonbet",
   "betclic", "betfair", "williamhill", "betano", "sportingbet", "888sport",
   "sport888", "nordicbet", "coolbet", "betvictor", "betfair_sb_uk",
   "betfair_ex_eu", "betfair_ex_uk"]

def FINLAND_RESTRICTED : List String :=
  ["betmgm", "draftkings", "fanduel", "betrivers", "fanatics", "williamhill_us",
   "ballybet", "betparx", "espnbet", "hardrockbet", "fliff", "rebet",
   "pointsbetus", "barstool", "betfair_ex_au", "betr_au", "betright",
   "boombet", "ladbrokes_au", "neds", "playup", "pointsbetau", "sportsbet",
   "tab", "tabtouch", "gtbets", "bovada", "virginbet", "livescorebet",
   "coral", "ladbrokes_uk", "codere_it"]

/-- The process-wide filter flags of the source, as an explicit record.
Defaults mirror the module-level initial values. -/
structure Settings where
  include_unreliable : Bool := false
  use_all_books : Bool := false
  include_exchanges : Bool := false
  finland_only : Bool := true
  exclude_books : List String := []
deriving DecidableEq, Repr

def defaultSettings : Settings := {}

/-- The per-bookmaker keep decision of the source filter, rules applied in
source order. -/
def keepBookmaker (s : Settings) (bm : Bookmaker) : Bool :=
  if bm.key != "" && s.exclude_books.contains (pyLower bm.key) then false
  else if BLACKLIST_BOOKMAKERS.contains bm.key then false
  else if NON_BETFAIR_EXCHANGES.contains bm.key then false
  else if !s.include_exchanges && BETFAIR_EXCHANGES.contains bm.key then false
  else if s.finland_only && FINLAND_RESTRICTED.contains bm.key then false
  else if !s.use_all_books && !TRUSTED_BOOKMAKERS.contains bm.key then false
  else if !s.include_unreliable && UNRELIABLE_BOOKMAKERS.contains bm.key then false
  else true

/-- The bookmaker filter of the source applied to an event's bookmaker
list. -/
def filter_bookmakers (s : Settings) (bms : List Bookmaker) : List Bookmaker :=
  bms.filter (keepBookmaker s)

/- ### Opportunity records -/

/-- The line field of an emitted record: absent, a numeric line, or the
cross-line pair rendered by the source as an over/under string. -/
inductive Line where
  | lnone : Line
  | lnum : ℚ → Line
  | lcross : ℚ → ℚ → Line
  | lstr : String → Line
deriving DecidableEq, Repr

/-- One leg of an opportunity: the indexed outcome/odds/stake/book fields of
the flat Python dict, with the bookmaker key kept alongside the title. -/
structure Leg where
  outcome : String
  odds : ℚ
  stake : ℚ
  book_title : String
  book_key : String
  leg_update : Option String
deriving DecidableEq, Repr

/-- An emitted arbitrage opportunity record. -/
structure ArbRecord where
  sport_key : String
  event_id : String
  home : String
  away : String
  commence : String
  market : String
  line : Line
  arb_type : String
  legs : List Leg
  total_stake : ℚ
  profit_pct : ℚ
  gap : Option ℚ := none
  mid_type : Option String := none
deriving DecidableEq, Repr

/-- The bookmaker keys of a record's legs, in leg order. -/
def legBooks (r : ArbRecord) : List String := r.legs.map (fun l => l.book_key)

/- ### Grouping helpers (Python defaultdict with insertion order) -/

/-- Append an entry to the group of key k, creating the group at the end
when the key is new, as a Python dict does. -/
def pushAssoc {κ ε : Type} [DecidableEq κ] (m : List (κ × List ε)) (k : κ) (e : ε) :
    List (κ × List ε) :=
  if ∃ kv ∈ m, kv.1 = k then
    m.map (fun kv => if kv.1 = k then (kv.1, kv.2 ++ [e]) else kv)
  else m ++ [(k, [e])]

/-- A quote entry carried by the 2-way and 3-way scanners. -/
structure QEntry where
  bk : String
  btitle : String
  price : ℚ
  lu : Option String
deriving DecidableEq, Repr

/-- A quote entry carried by the dynamic n-way scanner. -/
structure NEntry where
  bk : String
  btitle : String
  price : ℚ
  lu : Option String
  name : String
  point : Option ℚ
deriving DecidableEq, Repr

/-- A totals quote carried by the cross-line scanner. -/
structure TEntry where
  line : ℚ
  price : ℚ
  bk : String
  btitle : String
  lu : Option String
deriving DecidableEq, Repr

/- ### scan_totals -/

/-- Append an Over or Under quote to the per-line group map. -/
def pushTot (m : List (ℚ × (List QEntry × List QEntry))) (line : ℚ) (isOver : Bool)
    (e : QEntry) : List (ℚ × (List QEntry × List QEntry)) :=
  if ∃ kv ∈ m, kv.1 = line then
    m.map (fun kv => if kv.1 = line then
        (kv.1, if isOver then (kv.2.1 ++ [e], kv.2.2) else (kv.2.1, kv.2.2 ++ [e]))
      else kv)
  else m ++ [(line, if isOver then ([e], []) else ([], [e]))]

/-- The by_line grouping loop of scan_totals: quotes named Over or Under
with a line and a price, grouped by the exact numeric line. -/
def collect_totals (market_key : String) (bms : List Bookmaker) :
    List (ℚ × (List QEntry × List QEntry)) :=
  bms.foldl (fun acc bm =>
    (bm.markets.filter (fun mkt => mkt.key == market_key)).foldl (fun acc2 mkt =>
      mkt.outcomes.foldl (fun acc3 o =>
        match o.name, o.point, o.price with
        | some n, some pt, some pr =>
          if n = "Over" then
            pushTot acc3 pt true ⟨bm.key, bm.title, pr, bm.last_update⟩
          else if n = "Under" then
            pushTot acc3 pt false ⟨bm.key, bm.title, pr, bm.last_update⟩
          else acc3
        | _, _, _ => acc3) acc2) acc) []

/-- scan_totals of the source: for each line, each Over quote against each
Under quote from a different bookmaker, through the pairwise calculator. -/
def scan_totals (s : Settings) (events : List Event) (sport_key market_key : String) :
    List ArbRecord :=
  events.flatMap (fun ev =>
    (collect_totals market_key (filter_bookmakers s ev.bookmakers)).flatMap (fun g =>
      if g.2.1 = [] ∨ g.2.2 = [] then []
      else
        g.2.1.flatMap (fun a =>
          g.2.2.filterMap (fun b =>
            if a.bk = b.bk then none
            else
              match calc_arb_equal_payout a.price b.price a.bk b.bk with
              | none => none
              | some r =>
                some { sport_key := sport_key, event_id := ev.id, home := ev.home_team,
                       away := ev.away_team, commence := ev.commence_time,
                       market := market_key, line := Line.lnum g.1,
                       arb_type := "2-way",
                       legs := [⟨"Over", a.price, r.1, a.btitle, a.bk, a.lu⟩,
                                ⟨"Under", b.price, r.2.1, b.btitle, b.bk, b.lu⟩],
                       total_stake := r.2.2,
                       profit_pct := arb_profit_pct a.price b.price a.bk b.bk }))))

/- ### scan_double_chance, scan_btts, scan_draw_no_bet -/

/-- The name normalization of scan_double_chance: spaces removed, then
lowered. -/
def pyNorm (s : String) : String :=
  pyLower (String.mk (s.data.filter (fun c => c ≠ ' ')))

/-- Dictionary lookup in an association list with unique keys. -/
def assocFind {κ ε : Type} [DecidableEq κ] : List (κ × ε) → κ → Option ε
  | [], _ => none
  | (k, v) :: rest, key => if k = key then some v else assocFind rest key

/-- The by_outcome grouping loop of scan_double_chance, keyed by the
normalized outcome name. -/
def collect_dc (bms : List Bookmaker) : List (String × List QEntry) :=
  bms.foldl (fun acc bm =>
    (bm.markets.filter (fun mkt => mkt.key == "double_chance")).foldl
      (fun acc2 mkt =>
        mkt.outcomes.foldl (fun acc3 o =>
          match o.price with
          | some pr =>
            if pyNorm (o.name.getD "") ≠ "" then
              pushAssoc acc3 (pyNorm (o.name.getD ""))
                ⟨bm.key, bm.title, pr, bm.last_update⟩
            else acc3
          | none => acc3) acc2) acc) []

/-- scan_double_chance of the source: the three fixed complementary pairs,
each quote of the first side against each quote of the second from a
different bookmaker; no break. -/
def scan_double_chance (s : Settings) (events : List Event)
    (sport_key : String) : List ArbRecord :=
  events.flatMap (fun ev =>
    let m := collect_dc (filter_bookmakers s ev.bookmakers)
    [("homeordraw", "away"), ("awayordraw", "home"),
     ("homeoraway", "draw")].flatMap (fun pr =>
      match assocFind m pr.1 with
      | none => []
      | some l1 =>
        match assocFind m pr.2 with
        | none => []
        | some l2 =>
          l1.flatMap (fun a =>
            l2.filterMap (fun b =>
              if a.bk = b.bk then none
              else
                match calc_arb_equal_payout a.price b.price a.bk b.bk with
                | none => none
                | some r =>
                  some { sport_key := sport_key, event_id := ev.id,
                         home := ev.home_team, away := ev.away_team,
                         commence := ev.commence_time, market := "double_chance",
                         line := Line.lstr (pr.1 ++ " vs " ++ pr.2),
                         arb_type := "2-way",
                         legs := [⟨pr.1, a.price, r.1, a.btitle, a.bk, a.lu⟩,
                                  ⟨pr.2, b.price, r.2.1, b.btitle, b.bk, b.lu⟩],
                         total_stake := r.2.2,
                         profit_pct :=
                           arb_profit_pct a.price b.price a.bk b.bk }))))

/-- The Yes quotes of the btts market of an event. -/
def btts_side (side : String) (bms : List Bookmaker) : List QEntry :=
  bms.flatMap (fun bm =>
    (bm.markets.filter (fun mkt => mkt.key == "btts")).flatMap (fun mkt =>
      mkt.outcomes.filterMap (fun o =>
        o.price.bind (fun pr =>
          if o.name.getD "" ≠ "" ∧ pyLower (o.name.getD "") = side then
            some ⟨bm.key, bm.title, pr, bm.last_update⟩
          else none))))

/-- scan_btts of the source: every Yes quote against every No quote from a
different bookmaker; no break. -/
def scan_btts (s : Settings) (events : List Event) (sport_key : String) :
    List ArbRecord :=
  events.flatMap (fun ev =>
    (btts_side "yes" (filter_bookmakers s ev.bookmakers)).flatMap (fun a =>
      (btts_side "no" (filter_bookmakers s ev.bookmakers)).filterMap (fun b =>
        if a.bk = b.bk then none
        else
          match calc_arb_equal_payout a.price b.price a.bk b.bk with
          | none => none
          | some r =>
            some { sport_key := sport_key, event_id := ev.id,
                   home := ev.home_team, away := ev.away_team,
                   commence := ev.commence_time, market := "btts",
                   line := Line.lnone, arb_type := "2-way",
                   legs := [⟨"Yes", a.price, r.1, a.btitle, a.bk, a.lu⟩,
                            ⟨"No", b.price, r.2.1, b.btitle, b.bk, b.lu⟩],
                   total_stake := r.2.2,
                   profit_pct := arb_profit_pct a.price b.price a.bk b.bk })))

/-- The side test of scan_draw_no_bet: the literal side word or the team
name, case-insensitively, with a nonempty team name. -/
def dnb_matches (side team : String) (o : Outcome) : Prop :=
  pyLower (o.name.getD "") = side ∨
    (team ≠ "" ∧ pyLower (o.name.getD "") = pyLower team)

instance (side team : String) (o : Outcome) : Decidable (dnb_matches side team o) := by
  unfold dnb_matches
  infer_instance

/-- The home quotes of the draw_no_bet market of an event. -/
def dnb_home (home : String) (bms : List Bookmaker) : List QEntry :=
  bms.flatMap (fun bm =>
    (bm.markets.filter (fun mkt => mkt.key == "draw_no_bet")).flatMap (fun mkt =>
      mkt.outcomes.filterMap (fun o =>
        o.price.bind (fun pr =>
          if dnb_matches "home" home o then
            some ⟨bm.key, bm.title, pr, bm.last_update⟩
          else none))))

/-- The away quotes of the draw_no_bet market of an event: the source elif
sends a quote matching the home test to the home bucket only, so the away
bucket takes quotes failing the home test and passing the away test. -/
def dnb_away (home away : String) (bms : List Bookmaker) : List QEntry :=
  bms.flatMap (fun bm =>
    (bm.markets.filter (fun mkt => mkt.key == "draw_no_bet")).flatMap (fun mkt =>
      mkt.outcomes.filterMap (fun o =>
        o.price.bind (fun pr =>
          if ¬ dnb_matches "home" home o ∧ dnb_matches "away" away o then
            some ⟨bm.key, bm.title, pr, bm.last_update⟩
          else none))))

/-- scan_draw_no_bet of the source: every home quote against every away
quote from a different bookmaker; no break. -/
def scan_draw_no_bet (s : Settings) (events : List Event)
    (sport_key : String) : List ArbRecord :=
  events.flatMap (fun ev =>
    let home_odds := dnb_home ev.home_team (filter_bookmakers s ev.bookmakers)
    let away_odds := dnb_away ev.home_team ev.away_team
      (filter_bookmakers s ev.bookmakers)
    home_odds.flatMap (fun a =>
      away_odds.filterMap (fun b =>
        if a.bk = b.bk then none
        else
          match calc_arb_equal_payout a.price b.price a.bk b.bk with
          | none => none
          | some r =>
            some { sport_key := sport_key, event_id := ev.id,
                   home := ev.home_team, away := ev.away_team,
                   commence := ev.commence_time, market := "draw_no_bet",
                   line := Line.lnone, arb_type := "2-way",
                   legs := [⟨"Home", a.price, r.1, a.btitle, a.bk, a.lu⟩,
                            ⟨"Away", b.price, r.2.1, b.btitle, b.bk, b.lu⟩],
                   total_stake := r.2.2,
                   profit_pct := arb_profit_pct a.price b.price a.bk b.bk })))

/- ### scan_4way_combined_markets -/

/-- First-occurrence deduplication of a line list, modelling the
lines_seen set of the 4-way scanner. -/
def dedupAcc (seen : List ℚ) : List ℚ → List ℚ
  | [] => []
  | x :: xs => if x ∈ seen then dedupAcc seen xs else x :: dedupAcc (seen ++ [x]) xs

/-- The h2h_odds grouping loop of the 4-way scanner: drawless 2-outcome
h2h markets, quotes with a nonzero price, keyed by outcome name. -/
def collect_4way_h2h (bms : List Bookmaker) : List (String × List QEntry) :=
  bms.foldl (fun acc bm =>
    (bm.markets.filter (fun mkt => mkt.key == "h2h"
        && mkt.outcomes.length == 2
        && !(mkt.outcomes.any (fun o => pyLower (o.name.getD "") == "draw")))).foldl
      (fun acc2 mkt =>
        mkt.outcomes.foldl (fun acc3 o =>
          match o.price with
          | some pr =>
            if o.name.getD "" ≠ "" ∧ pr ≠ 0 then
              pushAssoc acc3 (o.name.getD "") ⟨bm.key, bm.title, pr, bm.last_update⟩
            else acc3
          | none => acc3) acc2) acc) []

/-- The totals_odds grouping loop of the 4-way scanner, keyed by line and
side. -/
def collect_4way_totals (bms : List Bookmaker) :
    List ((ℚ × String) × List QEntry) :=
  bms.foldl (fun acc bm =>
    (bm.markets.filter (fun mkt =>
        mkt.key == "totals" || mkt.key == "alternate_totals")).foldl
      (fun acc2 mkt =>
        mkt.outcomes.foldl (fun acc3 o =>
          match o.name, o.point, o.price with
          | some n, some pt, some pr =>
            if n = "Over" ∨ n = "Under" then
              pushAssoc acc3 (pt, n) ⟨bm.key, bm.title, pr, bm.last_update⟩
            else acc3
          | _, _, _ => acc3) acc2) acc) []

/-- scan_4way_combined_markets of the source: two h2h sides crossed with
an Over/Under pair at one line, odds multiplied per compound outcome,
requiring the set of the four bookmakers to have size 4 (written as the
six pairwise disequalities).  The compound bookmaker key of a leg is the
plus-joined pair the source passes to the calculator.  The numeric line
the source renders into the market string and outcome names is kept in the
record's line field.  A successful 4-way call always returns four stakes,
so the exact-shape match is exhaustive on reachable inputs. -/
def scan_4way_combined_markets (s : Settings) (events : List Event)
    (sport_key : String) : List ArbRecord :=
  events.flatMap (fun ev =>
    let h2h := collect_4way_h2h (filter_bookmakers s ev.bookmakers)
    let tot := collect_4way_totals (filter_bookmakers s ev.bookmakers)
    match h2h with
    | [(team1, l1), (team2, l2)] =>
      (dedupAcc [] (tot.map (fun kv => kv.1.1))).flatMap (fun line =>
        match assocFind tot (line, "Over") with
        | none => []
        | some overs =>
          match assocFind tot (line, "Under") with
          | none => []
          | some unders =>
            l1.flatMap (fun t1 => l2.flatMap (fun t2 => overs.flatMap (fun ov =>
              unders.filterMap (fun un =>
                if t1.bk = t2.bk ∨ t1.bk = ov.bk ∨ t1.bk = un.bk ∨ t2.bk = ov.bk
                    ∨ t2.bk = un.bk ∨ ov.bk = un.bk then none
                else
                  match calc_nway_arb
                      [t1.price * ov.price, t1.price * un.price,
                       t2.price * ov.price, t2.price * un.price]
                      [t1.bk ++ "+" ++ ov.bk, t1.bk ++ "+" ++ un.bk,
                       t2.bk ++ "+" ++ ov.bk, t2.bk ++ "+" ++ un.bk] with
                  | some ([s1, s2, s3, s4], total) =>
                    some { sport_key := sport_key, event_id := ev.id,
                           home := ev.home_team, away := ev.away_team,
                           commence := ev.commence_time,
                           market := "4way_h2h+totals",
                           line := Line.lnum line, arb_type := "4-way",
                           legs := [⟨team1 ++ " + Over", t1.price * ov.price, s1,
                                      t1.btitle ++ " + " ++ ov.btitle,
                                      t1.bk ++ "+" ++ ov.bk, none⟩,
                                    ⟨team1 ++ " + Under", t1.price * un.price, s2,
                                      t1.btitle ++ " + " ++ un.btitle,
                                      t1.bk ++ "+" ++ un.bk, none⟩,
                                    ⟨team2 ++ " + Over", t2.price * ov.price, s3,
                                      t2.btitle ++ " + " ++ ov.btitle,
                                      t2.bk ++ "+" ++ ov.bk, none⟩,
                                    ⟨team2 ++ " + Under", t2.price * un.price, s4,
                                      t2.btitle ++ " + " ++ un.btitle,
                                      t2.bk ++ "+" ++ un.bk, none⟩],
                           total_stake := total,
                           profit_pct := nway_arb_profit_pct
                             [t1.price * ov.price, t1.price * un.price,
                              t2.price * ov.price, t2.price * un.price]
                             [t1.bk ++ "+" ++ ov.bk, t1.bk ++ "+" ++ un.bk,
                              t2.bk ++ "+" ++ ov.bk, t2.bk ++ "+" ++ un.bk] }
                  | _ => none)))))
    | _ => [])

/- ### scan_cross_line_opportunities -/

/-- The Over quotes of an event across the totals and alternate_totals
markets, in source iteration order. -/
def cross_overs (s : Settings) (ev : Event) : List TEntry :=
  (filter_bookmakers s ev.bookmakers).flatMap (fun bm =>
    (bm.markets.filter
        (fun mkt => mkt.key == "totals" || mkt.key == "alternate_totals")).flatMap
      (fun mkt =>
        mkt.outcomes.filterMap (fun o =>
          o.point.bind (fun pt => o.price.bind (fun pr =>
            if o.name.getD "" = "Over" then
              some ⟨pt, pr, bm.key, bm.title, bm.last_update⟩
            else none)))))

/-- The Under quotes of an event across the totals and alternate_totals
markets, in source iteration order. -/
def cross_unders (s : Settings) (ev : Event) : List TEntry :=
  (filter_bookmakers s ev.bookmakers).flatMap (fun bm =>
    (bm.markets.filter
        (fun mkt => mkt.key == "totals" || mkt.key == "alternate_totals")).flatMap
      (fun mkt =>
        mkt.outcomes.filterMap (fun o =>
          o.point.bind (fun pt => o.price.bind (fun pr =>
            if o.name.getD "" = "Under" then
              some ⟨pt, pr, bm.key, bm.title, bm.last_update⟩
            else none)))))

/-- scan_cross_line_opportunities of the source: every Over at a lower line
against every Under at a strictly higher line from a different bookmaker;
gap above 1 is flagged middle, otherwise scalp. -/
def scan_cross_line_opportunities (s : Settings) (events : List Event)
    (sport_key : String) : List ArbRecord :=
  events.flatMap (fun ev =>
    (cross_overs s ev).flatMap (fun ov =>
      (cross_unders s ev).filterMap (fun un =>
        if ov.bk = un.bk then none
        else if un.line ≤ ov.line then none
        else
          match calc_arb_equal_payout ov.price un.price ov.bk un.bk with
          | none => none
          | some r =>
            some { sport_key := sport_key, event_id := ev.id, home := ev.home_team,
                   away := ev.away_team, commence := ev.commence_time,
                   market := "cross_line_totals",
                   line := Line.lcross ov.line un.line,
                   arb_type := "2-way-middle",
                   legs := [⟨"Over", ov.price, r.1, ov.btitle, ov.bk, ov.lu⟩,
                            ⟨"Under", un.price, r.2.1, un.btitle, un.bk, un.lu⟩],
                   total_stake := r.2.2,
                   profit_pct := arb_profit_pct ov.price un.price ov.bk un.bk,
                   gap := some (un.line - ov.line),
                   mid_type := some (if 1 < un.line - ov.line then "middle"
                     else "scalp") })))

/- ### scan_h2h_3way -/

/-- The per-market acceptance test of scan_h2h_3way: exactly 3 outcomes and
a case-insensitive Draw among them. -/
def draw_market_ok (mkt : Market) : Bool :=
  mkt.outcomes.length == 3 &&
    mkt.outcomes.any (fun o => pyLower (pyStrip (o.name.getD "")) == "draw")

/-- The outcomes_data grouping loop of scan_h2h_3way, keyed by stripped
outcome name. -/
def collect_3way (market_key : String) (bms : List Bookmaker) :
    List (String × List QEntry) :=
  bms.foldl (fun acc bm =>
    (bm.markets.filter (fun mkt => mkt.key == market_key && draw_market_ok mkt)).foldl
      (fun acc2 mkt =>
        mkt.outcomes.foldl (fun acc3 o =>
          match o.price with
          | some pr =>
            if pyStrip (o.name.getD "") ≠ "" then
              pushAssoc acc3 (pyStrip (o.name.getD ""))
                ⟨bm.key, bm.title, pr, bm.last_update⟩
            else acc3
          | none => acc3) acc2) acc) []

/-- scan_h2h_3way of the source: all triples of quotes across the three
outcome buckets with pairwise distinct bookmakers, through the n-way
calculator.  The stake list of a successful 3-way call always has three
elements, so the exact-shape match is exhaustive on reachable inputs. -/
def scan_h2h_3way (s : Settings) (events : List Event) (sport_key market_key : String) :
    List ArbRecord :=
  events.flatMap (fun ev =>
    match collect_3way market_key (filter_bookmakers s ev.bookmakers) with
    | [(n1, l1), (n2, l2), (n3, l3)] =>
      l1.flatMap (fun e1 =>
        l2.flatMap (fun e2 =>
          l3.filterMap (fun e3 =>
            if e1.bk = e2.bk ∨ e1.bk = e3.bk ∨ e2.bk = e3.bk then none
            else
              match calc_nway_arb [e1.price, e2.price, e3.price]
                  [e1.bk, e2.bk, e3.bk] with
              | some ([s1, s2, s3], total) =>
                some { sport_key := sport_key, event_id := ev.id,
                       home := ev.home_team, away := ev.away_team,
                       commence := ev.commence_time,
                       market := market_key ++ "_3way", line := Line.lnone,
                       arb_type := "3-way",
                       legs := [⟨n1, e1.price, s1, e1.btitle, e1.bk, e1.lu⟩,
                                ⟨n2, e2.price, s2, e2.btitle, e2.bk, e2.lu⟩,
                                ⟨n3, e3.price, s3, e3.btitle, e3.bk, e3.lu⟩],
                       total_stake := total,
                       profit_pct := nway_arb_profit_pct
                         [e1.price, e2.price, e3.price] [e1.bk, e2.bk, e3.bk] }
              | _ => none)))
    | _ => [])

/- ### scan_nway_dynamic -/

/-- Python max(entries, key=price): the first entry of maximal price, none
only for an empty list (unreachable for groups built by pushAssoc). -/
def bestOf (entries : List NEntry) : Option NEntry :=
  entries.foldl (fun acc e =>
    match acc with
    | none => some e
    | some b => if b.price < e.price then some e else some b) none

/-- The outcomes_data grouping loop of scan_nway_dynamic, keyed by the
stripped name together with the optional point (the Python f-string
outcome_id, represented structurally). -/
def collect_nway (market_key : String) (bms : List Bookmaker) :
    List ((String × Option ℚ) × List NEntry) :=
  bms.foldl (fun acc bm =>
    (bm.markets.filter (fun mkt => mkt.key == market_key)).foldl (fun acc2 mkt =>
      mkt.outcomes.foldl (fun acc3 o =>
        match o.price with
        | some pr =>
          if pyStrip (o.name.getD "") ≠ "" then
            pushAssoc acc3 (pyStrip (o.name.getD ""), o.point)
              ⟨bm.key, bm.title, pr, bm.last_update, pyStrip (o.name.getD ""), o.point⟩
          else acc3
        | none => acc3) acc2) acc) []

/-- The per-event body of scan_nway_dynamic: best quote per outcome, no
bookmaker distinctness requirement, then the n-way calculator. -/
def scan_event_nway (s : Settings) (sport_key market_key : String)
    (min_outcomes max_outcomes : ℕ) (ev : Event) : Option ArbRecord :=
  let data := collect_nway market_key (filter_bookmakers s ev.bookmakers)
  let num_outcomes := data.length
  if num_outcomes < min_outcomes ∨ max_outcomes < num_outcomes then none
  else
    let best := data.filterMap (fun kv => bestOf kv.2)
    let best_odds := best.map (fun e => e.price)
    let bookmaker_keys := best.map (fun e => e.bk)
    match calc_nway_arb best_odds bookmaker_keys with
    | none => none
    | some (stakes, total) =>
      some { sport_key := sport_key, event_id := ev.id, home := ev.home_team,
             away := ev.away_team, commence := ev.commence_time,
             market := market_key, line := Line.lnone,
             arb_type := toString num_outcomes ++ "-way",
             legs := (best.zip stakes).map (fun p =>
               ⟨p.1.name, p.1.price, p.2, p.1.btitle, p.1.bk, p.1.lu⟩),
             total_stake := total,
             profit_pct := nway_arb_profit_pct best_odds bookmaker_keys }

/-- scan_nway_dynamic of the source. -/
def scan_nway_dynamic (s : Settings) (events : List Event)
    (sport_key market_key : String) (min_outcomes max_outcomes : ℕ) :
    List ArbRecord :=
  events.filterMap (scan_event_nway s sport_key market_key min_outcomes max_outcomes)

/- ### scan_h2h -/

/-- is_two_way_market of the source: exactly 2 outcomes, none named Draw
after stripping and lowering. -/
def is_two_way_market (outs : List Outcome) : Bool :=
  outs.length == 2 &&
    !(outs.any (fun o => pyLower (pyStrip (o.name.getD "")) == "draw"))

/-- The outcomes_by_side grouping loop of scan_h2h, keyed by the raw
outcome name; markets are admitted by is_two_way_market when the two-way
only flag is set, by a bare 2-outcome count otherwise. -/
def collect_h2h (market_key : String) (two_way_only : Bool)
    (bms : List Bookmaker) : List (String × List QEntry) :=
  bms.foldl (fun acc bm =>
    (bm.markets.filter (fun mkt => mkt.key == market_key &&
        (if two_way_only then is_two_way_market mkt.outcomes
         else mkt.outcomes.length == 2))).foldl
      (fun acc2 mkt =>
        mkt.outcomes.foldl (fun acc3 o =>
          match o.price with
          | some pr =>
            if o.name.getD "" ≠ "" then
              pushAssoc acc3 (o.name.getD "") ⟨bm.key, bm.title, pr, bm.last_update⟩
            else acc3
          | none => acc3) acc2) acc) []

/-- scan_h2h of the source: per market key, the two sides paired across
distinct bookmakers; the break after the first success per first-side quote
is modelled by taking the head of the candidate list. -/
def scan_h2h (s : Settings) (two_way_only : Bool) (events : List Event)
    (sport_key : String) (market_keys : List String) : List ArbRecord :=
  events.flatMap (fun ev =>
    market_keys.flatMap (fun mk =>
      match collect_h2h mk two_way_only (filter_bookmakers s ev.bookmakers) with
      | [(a_side, la), (b_side, lb)] =>
        la.flatMap (fun a =>
          (lb.filterMap (fun b =>
            if a.bk = b.bk then none
            else
              match calc_arb_equal_payout a.price b.price a.bk b.bk with
              | none => none
              | some r =>
                some { sport_key := sport_key, event_id := ev.id,
                       home := ev.home_team, away := ev.away_team,
                       commence := ev.commence_time, market := mk,
                       line := Line.lnone, arb_type := "2-way",
                       legs := [⟨a_side, a.price, r.1, a.btitle, a.bk, a.lu⟩,
                                ⟨b_side, b.price, r.2.1, b.btitle, b.bk, b.lu⟩],
                       total_stake := r.2.2,
                       profit_pct := arb_profit_pct a.price b.price a.bk b.bk })).take 1)
      | _ => []))

/- ### scan_spreads and scan_asian_handicap -/

/-- A spread quote: outcome name, signed line, bookmaker, price. -/
structure SEntry where
  name : String
  pt : ℚ
  bk : String
  btitle : String
  price : ℚ
  lu : Option String
deriving DecidableEq, Repr

/-- The by_line grouping loop of scan_spreads, keyed by market key and
absolute handicap line. -/
def collect_spreads (market_keys : List String) (bms : List Bookmaker) :
    List ((String × ℚ) × List SEntry) :=
  bms.foldl (fun acc bm =>
    (bm.markets.filter (fun mkt => market_keys.contains mkt.key)).foldl
      (fun acc2 mkt =>
        mkt.outcomes.foldl (fun acc3 o =>
          match o.name, o.point, o.price with
          | some n, some pt, some pr =>
            pushAssoc acc3 (mkt.key, abs pt)
              ⟨n, pt, bm.key, bm.title, pr, bm.last_update⟩
          | _, _, _ => acc3) acc2) acc) []

/-- scan_spreads of the source: per absolute line, negative-line quotes
against positive-line quotes, different bookmaker and different outcome
name, breaking after the first success per negative quote.  A leg stores
the raw outcome name (the source renders it with the signed line appended;
the line itself is kept in the record's line field). -/
def scan_spreads (s : Settings) (events : List Event) (sport_key : String)
    (market_keys : List String) : List ArbRecord :=
  events.flatMap (fun ev =>
    (collect_spreads market_keys (filter_bookmakers s ev.bookmakers)).flatMap
      (fun g =>
        let neg := g.2.filter (fun e => decide (e.pt < 0))
        let pos := g.2.filter (fun e => decide (0 < e.pt))
        if neg = [] ∨ pos = [] then []
        else
          neg.flatMap (fun a =>
            (pos.filterMap (fun b =>
              if a.bk = b.bk then none
              else if a.name = b.name then none
              else
                match calc_arb_equal_payout a.price b.price a.bk b.bk with
                | none => none
                | some r =>
                  some { sport_key := sport_key, event_id := ev.id,
                         home := ev.home_team, away := ev.away_team,
                         commence := ev.commence_time, market := g.1.1,
                         line := Line.lnum g.1.2, arb_type := "2-way",
                         legs := [⟨a.name, a.price, r.1, a.btitle, a.bk, a.lu⟩,
                                  ⟨b.name, b.price, r.2.1, b.btitle, b.bk, b.lu⟩],
                         total_stake := r.2.2,
                         profit_pct :=
                           arb_profit_pct a.price b.price a.bk b.bk })).take 1)))

/-- Python float modulo x % y (sign of the divisor). -/
def pyMod (x y : ℚ) : ℚ := x - y * (⌊x / y⌋ : ℤ)

/-- The quarter-line test of scan_asian_handicap. -/
def quarter_line (line : ℚ) : Bool :=
  decide (|pyMod line (1/2) - 1/4| < 1/100) ||
    decide (|pyMod line (1/2) - 3/4| < 1/100)

/-- The handicap_lines grouping loop of scan_asian_handicap: quotes from
spreads or alternate_spreads with a quarter line, keyed by the absolute
line. -/
def collect_asian (bms : List Bookmaker) : List (ℚ × List SEntry) :=
  bms.foldl (fun acc bm =>
    (bm.markets.filter (fun mkt =>
        mkt.key == "spreads" || mkt.key == "alternate_spreads")).foldl
      (fun acc2 mkt =>
        mkt.outcomes.foldl (fun acc3 o =>
          match o.point, o.price with
          | some pt, some pr =>
            if quarter_line pt then
              pushAssoc acc3 (abs pt)
                ⟨o.name.getD "", pt, bm.key, bm.title, pr, bm.last_update⟩
            else acc3
          | _, _ => acc3) acc2) acc) []

/-- scan_asian_handicap of the source: per absolute quarter line, every
negative-line quote against every positive-line quote from a different
bookmaker with a different outcome name; no break, all pairs enumerated. -/
def scan_asian_handicap (s : Settings) (events : List Event)
    (sport_key : String) : List ArbRecord :=
  events.flatMap (fun ev =>
    (collect_asian (filter_bookmakers s ev.bookmakers)).flatMap (fun g =>
      let pos := g.2.filter (fun e => decide (0 < e.pt))
      let neg := g.2.filter (fun e => decide (e.pt < 0))
      if pos = [] ∨ neg = [] then []
      else
        neg.flatMap (fun a =>
          pos.filterMap (fun b =>
            if a.bk = b.bk ∨ a.name = b.name then none
            else
              match calc_arb_equal_payout a.price b.price a.bk b.bk with
              | none => none
              | some r =>
                some { sport_key := sport_key, event_id := ev.id,
                       home := ev.home_team, away := ev.away_team,
                       commence := ev.commence_time, market := "asian_handicap",
                       line := Line.lnum g.1, arb_type := "2-way-asian",
                       legs := [⟨a.name, a.price, r.1, a.btitle, a.bk, a.lu⟩,
                                ⟨b.name, b.price, r.2.1, b.btitle, b.bk, b.lu⟩],
                       total_stake := r.2.2,
                       profit_pct := arb_profit_pct a.price b.price a.bk b.bk }))))

/- ### Distinct bookmakers in the emitted legs, scanner by scanner -/

lemma pairwise_two {k1 k2 : String} (h : k1 ≠ k2) :
    List.Pairwise (fun x y => x ≠ y) [k1, k2] := by
  refine List.Pairwise.cons ?_ (List.pairwise_singleton _ _)
  intro y hy
  rcases List.mem_singleton.mp hy with rfl
  exact h

lemma scan_h2h_books {s : Settings} {two_way_only : Bool} {evs : List Event}
    {sport : String} {mks : List String} {r : ArbRecord}
    (h : r ∈ scan_h2h s two_way_only evs sport mks) :
    (legBooks r).Pairwise (fun x y => x ≠ y) := by
  simp only [scan_h2h, List.mem_flatMap] at h
  obtain ⟨ev, -, mk, -, h⟩ := h
  split at h
  case _ a_side la b_side lb hdata =>
    simp only [List.mem_flatMap] at h
    obtain ⟨a, -, h⟩ := h
    have h2 := List.mem_of_mem_take h
    rw [List.mem_filterMap] at h2
    obtain ⟨b, -, hfb⟩ := h2
    split at hfb
    · exact absurd hfb (by simp)
    · next hne =>
      cases hcalc : calc_arb_equal_payout a.price b.price a.bk b.bk with
      | none =>
        rw [hcalc] at hfb
        exact absurd hfb (by simp)
      | some res =>
        rw [hcalc] at hfb
        simp only [Option.some.injEq] at hfb
        subst hfb
        exact pairwise_two hne
  case _ hshape =>
    exact absurd h (by simp)

lemma scan_spreads_books {s : Settings} {evs : List Event} {sport : String}
    {mks : List String} {r : ArbRecord}
    (h : r ∈ scan_spreads s evs sport mks) :
    (legBooks r).Pairwise (fun x y => x ≠ y) := by
  simp only [scan_spreads, List.mem_flatMap] at h
  obtain ⟨ev, -, g, -, h⟩ := h
  split at h
  · exact absurd h (by simp)
  · simp only [List.mem_flatMap] at h
    obtain ⟨a, -, h⟩ := h
    have h2 := List.mem_of_mem_take h
    rw [List.mem_filterMap] at h2
    obtain ⟨b, -, hfb⟩ := h2
    split at hfb
    · exact absurd hfb (by simp)
    · next hne =>
      split at hfb
      · exact absurd hfb (by simp)
      · cases hcalc : calc_arb_equal_payout a.price b.price a.bk b.bk with
        | none =>
          rw [hcalc] at hfb
          exact absurd hfb (by simp)
        | some res =>
          rw [hcalc] at hfb
          simp only [Option.some.injEq] at hfb
          subst hfb
          exact pairwise_two hne

lemma scan_asian_books {s : Settings} {evs : List Event} {sport : String}
    {r : ArbRecord} (h : r ∈ scan_asian_handicap s evs sport) :
    (legBooks r).Pairwise (fun x y => x ≠ y) := by
  simp only [scan_asian_handicap, List.mem_flatMap] at h
  obtain ⟨ev, -, g, -, h⟩ := h
  split at h
  · exact absurd h (by simp)
  · simp only [List.mem_flatMap, List.mem_filterMap] at h
    obtain ⟨a, -, b, -, hfb⟩ := h
    split at hfb
    · exact absurd hfb (by simp)
    · next hne =>
      push_neg at hne
      cases hcalc : calc_arb_equal_payout a.price b.price a.bk b.bk with
      | none =>
        rw [hcalc] at hfb
        exact absurd hfb (by simp)
      | some res =>
        rw [hcalc] at hfb
        simp only [Option.some.injEq] at hfb
        subst hfb
        exact pairwise_two hne.1

lemma scan_dc_books {s : Settings} {evs : List Event} {sport : String}
    {r : ArbRecord} (h : r ∈ scan_double_chance s evs sport) :
    (legBooks r).Pairwise (fun x y => x ≠ y) := by
  simp only [scan_double_chance, List.mem_flatMap] at h
  obtain ⟨ev, -, pair0, -, h⟩ := h
  split at h
  · exact absurd h (by simp)
  · split at h
    · exact absurd h (by simp)
    · simp only [List.mem_flatMap, List.mem_filterMap] at h
      obtain ⟨a, -, b, -, hfb⟩ := h
      split at hfb
      · exact absurd hfb (by simp)
      · next hne =>
        cases hcalc : calc_arb_equal_payout a.price b.price a.bk b.bk with
        | none =>
          rw [hcalc] at hfb
          exact absurd hfb (by simp)
        | some res =>
          rw [hcalc] at hfb
          simp only [Option.some.injEq] at hfb
          subst hfb
          exact pairwise_two hne

lemma scan_btts_books {s : Settings} {evs : List Event} {sport : String}
    {r : ArbRecord} (h : r ∈ scan_btts s evs sport) :
    (legBooks r).Pairwise (fun x y => x ≠ y) := by
  simp only [scan_btts, List.mem_flatMap, List.mem_filterMap] at h
  obtain ⟨ev, -, a, -, b, -, hfb⟩ := h
  split at hfb
  · exact absurd hfb (by simp)
  · next hne =>
    cases hcalc : calc_arb_equal_payout a.price b.price a.bk b.bk with
    | none =>
      rw [hcalc] at hfb
      exact absurd hfb (by simp)
    | some res =>
      rw [hcalc] at hfb
      simp only [Option.some.injEq] at hfb
      subst hfb
      exact pairwise_two hne

lemma scan_dnb_books {s : Settings} {evs : List Event} {sport : String}
    {r : ArbRecord} (h : r ∈ scan_draw_no_bet s evs sport) :
    (legBooks r).Pairwise (fun x y => x ≠ y) := by
  simp only [scan_draw_no_bet, List.mem_flatMap, List.mem_filterMap] at h
  obtain ⟨ev, -, a, -, b, -, hfb⟩ := h
  split at hfb
  · exact absurd hfb (by simp)
  · next hne =>
    cases hcalc : calc_arb_equal_payout a.price b.price a.bk b.bk with
    | none =>
      rw [hcalc] at hfb
      exact absurd hfb (by simp)
    | some res =>
      rw [hcalc] at hfb
      simp only [Option.some.injEq] at hfb
      subst hfb
      exact pairwise_two hne

lemma scan_4way_books {s : Settings} {evs : List Event} {sport : String}
    {r : ArbRecord} (h : r ∈ scan_4way_combined_markets s evs sport) :
    ∃ k1 k2 k3 k4 : String,
      k1 ≠ k2 ∧ k1 ≠ k3 ∧ k1 ≠ k4 ∧ k2 ≠ k3 ∧ k2 ≠ k4 ∧ k3 ≠ k4 ∧
      legBooks r = [k1 ++ "+" ++ k3, k1 ++ "+" ++ k4,
                    k2 ++ "+" ++ k3, k2 ++ "+" ++ k4] := by
  simp only [scan_4way_combined_markets, List.mem_flatMap] at h
  obtain ⟨ev, -, h⟩ := h
  split at h
  case _ team1 l1 team2 l2 hdata =>
    simp only [List.mem_flatMap] at h
    obtain ⟨line, -, h⟩ := h
    split at h
    · exact absurd h (by simp)
    · split at h
      · exact absurd h (by simp)
      · simp only [List.mem_flatMap, List.mem_filterMap] at h
        obtain ⟨t1, -, t2, -, ov, -, un, -, hfb⟩ := h
        split at hfb
        · exact absurd hfb (by simp)
        · next hne =>
          push_neg at hne
          obtain ⟨h12, h13, h14, h23, h24, h34⟩ := hne
          split at hfb
          case _ s1 s2 s3 s4 total hcalc =>
            simp only [Option.some.injEq] at hfb
            subst hfb
            exact ⟨t1.bk, t2.bk, ov.bk, un.bk, h12, h13, h14, h23, h24, h34, rfl⟩
          case _ hno =>
            exact absurd hfb (by simp)
  case _ hshape =>
    exact absurd h (by simp)

/- ### Positivity of the profit functions on calculator successes -/

lemma pair_profit_pos {a b : ℚ} {ka kb : String} {res : ℚ × ℚ × ℚ}
    (h : calc_arb_equal_payout a b ka kb = some res) :
    0 < arb_profit_pct a b ka kb := by
  by_cases h1 : a ≤ 1 ∨ b ≤ 1
  · simp only [calc_arb_equal_payout, if_pos h1] at h
    exact absurd h (by simp)
  · have h1a : 1 < a := not_le.mp fun hh => h1 (Or.inl hh)
    have h1b : 1 < b := not_le.mp fun hh => h1 (Or.inr hh)
    by_cases h2 : 1 ≤ 1 / adjust_odds_for_commission a ka
        + 1 / adjust_odds_for_commission b kb
    · simp only [calc_arb_equal_payout, if_neg h1] at h
      rw [if_pos h2] at h
      exact absurd h (by simp)
    · have heag : 1 < adjust_odds_for_commission a ka := adjust_gt_one h1a ka
      have hebg : 1 < adjust_odds_for_commission b kb := adjust_gt_one h1b kb
      have hpos : 0 < 1 / adjust_odds_for_commission a ka
          + 1 / adjust_odds_for_commission b kb :=
        add_pos (one_div_pos.mpr (lt_trans one_pos heag))
          (one_div_pos.mpr (lt_trans one_pos hebg))
      have hlt : 1 / adjust_odds_for_commission a ka
          + 1 / adjust_odds_for_commission b kb < 1 := not_le.mp h2
      have hgt : 1 < 1 / (1 / adjust_odds_for_commission a ka
          + 1 / adjust_odds_for_commission b kb) := one_lt_one_div hpos hlt
      unfold arb_profit_pct
      linarith

lemma nway_profit_pos {odds : List ℚ} {keys : List String} {res : List ℚ × ℚ}
    (h : calc_nway_arb odds keys = some res) :
    0 < nway_arb_profit_pct odds keys := by
  by_cases hc : odds = [] ∨ ∃ o ∈ odds, o ≤ 1
  · simp only [calc_nway_arb, if_pos hc] at h
    exact absurd h (by simp)
  · by_cases hs : 1 ≤ inv_sum (effOdds odds keys)
    · simp only [calc_nway_arb, if_neg hc] at h
      rw [if_pos hs] at h
      exact absurd h (by simp)
    · have h1 : odds ≠ [] := fun he => hc (Or.inl he)
      have hall : ∀ o ∈ odds, 1 < o := fun o ho =>
        not_le.mp fun hle => hc (Or.inr ⟨o, ho, hle⟩)
      have heffne : effOdds odds keys ≠ [] := by
        intro hcon
        apply h1
        have := effOdds_length odds keys
        rw [hcon] at this
        exact List.length_eq_zero.mp this.symm
      have hspos : 0 < inv_sum (effOdds odds keys) :=
        inv_sum_pos heffne (effOdds_gt_one hall)
      have hgt : 1 < 1 / inv_sum (effOdds odds keys) :=
        one_lt_one_div hspos (not_le.mp hs)
      unfold nway_arb_profit_pct
      linarith

/- ### Membership inversion for the embedded scanners -/

lemma scan_totals_mem {s : Settings} {evs : List Event} {sport mk : String}
    {r : ArbRecord} (h : r ∈ scan_totals s evs sport mk) :
    ∃ ev ∈ evs, ∃ g ∈ collect_totals mk (filter_bookmakers s ev.bookmakers),
      ∃ a ∈ g.2.1, ∃ b ∈ g.2.2, a.bk ≠ b.bk ∧
        ∃ res, calc_arb_equal_payout a.price b.price a.bk b.bk = some res ∧
          r = { sport_key := sport, event_id := ev.id, home := ev.home_team,
                away := ev.away_team, commence := ev.commence_time,
                market := mk, line := Line.lnum g.1, arb_type := "2-way",
                legs := [⟨"Over", a.price, res.1, a.btitle, a.bk, a.lu⟩,
                         ⟨"Under", b.price, res.2.1, b.btitle, b.bk, b.lu⟩],
                total_stake := res.2.2,
                profit_pct := arb_profit_pct a.price b.price a.bk b.bk } := by
  simp only [scan_totals, List.mem_flatMap] at h
  obtain ⟨ev, hev, g, hg, h⟩ := h
  refine ⟨ev, hev, g, hg, ?_⟩
  split at h
  · simp at h
  · simp only [List.mem_flatMap, List.mem_filterMap] at h
    obtain ⟨a, ha, b, hb, hfb⟩ := h
    refine ⟨a, ha, b, hb, ?_⟩
    split at hfb
    · exact absurd hfb (by simp)
    · next hne =>
      cases hcalc : calc_arb_equal_payout a.price b.price a.bk b.bk with
      | none =>
        rw [hcalc] at hfb
        exact absurd hfb (by simp)
      | some res =>
        rw [hcalc] at hfb
        simp only [Option.some.injEq] at hfb
        exact ⟨hne, res, rfl, hfb.symm⟩

lemma scan_cross_line_mem {s : Settings} {evs : List Event} {sport : String}
    {r : ArbRecord} (h : r ∈ scan_cross_line_opportunities s evs sport) :
    ∃ ev ∈ evs, ∃ ov ∈ cross_overs s ev, ∃ un ∈ cross_unders s ev,
      ov.bk ≠ un.bk ∧ ov.line < un.line ∧
        ∃ res, calc_arb_equal_payout ov.price un.price ov.bk un.bk = some res ∧
          r = { sport_key := sport, event_id := ev.id, home := ev.home_team,
                away := ev.away_team, commence := ev.commence_time,
                market := "cross_line_totals",
                line := Line.lcross ov.line un.line,
                arb_type := "2-way-middle",
                legs := [⟨"Over", ov.price, res.1, ov.btitle, ov.bk, ov.lu⟩,
                         ⟨"Under", un.price, res.2.1, un.btitle, un.bk, un.lu⟩],
                total_stake := res.2.2,
                profit_pct := arb_profit_pct ov.price un.price ov.bk un.bk,
                gap := some (un.line - ov.line),
                mid_type := some (if 1 < un.line - ov.line then "middle"
                  else "scalp") } := by
  simp only [scan_cross_line_opportunities, List.mem_flatMap, List.mem_filterMap] at h
  obtain ⟨ev, hev, ov, hov, un, hun, hfb⟩ := h
  refine ⟨ev, hev, ov, hov, un, hun, ?_⟩
  split at hfb
  · exact absurd hfb (by simp)
  · next hne =>
    split at hfb
    · exact absurd hfb (by simp)
    · next hlin =>
      cases hcalc : calc_arb_equal_payout ov.price un.price ov.bk un.bk with
      | none =>
        rw [hcalc] at hfb
        exact absurd hfb (by simp)
      | some res =>
        rw [hcalc] at hfb
        simp only [Option.some.injEq] at hfb
        exact ⟨hne, not_le.mp hlin, res, rfl, hfb.symm⟩

lemma scan_h2h_3way_mem {s : Settings} {evs : List Event} {sport mk : String}
    {r : ArbRecord} (h : r ∈ scan_h2h_3way s evs sport mk) :
    ∃ ev ∈ evs, ∃ n1 l1 n2 l2 n3 l3,
      collect_3way mk (filter_bookmakers s ev.bookmakers)
        = [(n1, l1), (n2, l2), (n3, l3)] ∧
      ∃ e1 ∈ l1, ∃ e2 ∈ l2, ∃ e3 ∈ l3,
        ¬ (e1.bk = e2.bk ∨ e1.bk = e3.bk ∨ e2.bk = e3.bk) ∧
        ∃ s1 s2 s3 total,
          calc_nway_arb [e1.price, e2.price, e3.price] [e1.bk, e2.bk, e3.bk]
            = some ([s1, s2, s3], total) ∧
          r = { sport_key := sport, event_id := ev.id, home := ev.home_team,
                away := ev.away_team, commence := ev.commence_time,
                market := mk ++ "_3way", line := Line.lnone, arb_type := "3-way",
                legs := [⟨n1, e1.price, s1, e1.btitle, e1.bk, e1.lu⟩,
                         ⟨n2, e2.price, s2, e2.btitle, e2.bk, e2.lu⟩,
                         ⟨n3, e3.price, s3, e3.btitle, e3.bk, e3.lu⟩],
                total_stake := total,
                profit_pct := nway_arb_profit_pct [e1.price, e2.price, e3.price]
                  [e1.bk, e2.bk, e3.bk] } := by
  simp only [scan_h2h_3way, List.mem_flatMap] at h
  obtain ⟨ev, hev, h⟩ := h
  refine ⟨ev, hev, ?_⟩
  split at h
  case _ n1 l1 n2 l2 n3 l3 hdata =>
    refine ⟨n1, l1, n2, l2, n3, l3, hdata, ?_⟩
    simp only [List.mem_flatMap, List.mem_filterMap] at h
    obtain ⟨e1, h1, e2, h2, e3, h3, hfb⟩ := h
    refine ⟨e1, h1, e2, h2, e3, h3, ?_⟩
    split at hfb
    · exact absurd hfb (by simp)
    · next hne =>
      split at hfb
      case _ s1 s2 s3 total hcalc =>
        simp only [Option.some.injEq] at hfb
        exact ⟨hne, s1, s2, s3, total, hcalc, hfb.symm⟩
      case _ hno =>
        exact absurd hfb (by simp)
  case _ hshape =>
    simp at h

lemma scan_nway_dynamic_mem {s : Settings} {evs : List Event} {sport mk : String}
    {mn mx : ℕ} {r : ArbRecord} (h : r ∈ scan_nway_dynamic s evs sport mk mn mx) :
    ∃ ev ∈ evs, ∃ stakes total,
      calc_nway_arb
          (((collect_nway mk (filter_bookmakers s ev.bookmakers)).filterMap
              (fun kv => bestOf kv.2)).map (fun e => e.price))
          (((collect_nway mk (filter_bookmakers s ev.bookmakers)).filterMap
              (fun kv => bestOf kv.2)).map (fun e => e.bk))
        = some (stakes, total) ∧
      r.profit_pct = nway_arb_profit_pct
          (((collect_nway mk (filter_bookmakers s ev.bookmakers)).filterMap
              (fun kv => bestOf kv.2)).map (fun e => e.price))
          (((collect_nway mk (filter_bookmakers s ev.bookmakers)).filterMap
              (fun kv => bestOf kv.2)).map (fun e => e.bk)) := by
  simp only [scan_nway_dynamic, List.mem_filterMap] at h
  obtain ⟨ev, hev, hsome⟩ := h
  refine ⟨ev, hev, ?_⟩
  simp only [scan_event_nway] at hsome
  split at hsome
  · exact absurd hsome (by simp)
  · split at hsome
    case _ hno =>
      exact absurd hsome (by simp)
    case _ stakes total hcalc =>
      simp only [Option.some.injEq] at hsome
      refine ⟨stakes, total, hcalc, ?_⟩
      rw [← hsome]

/- ### Concrete feed fixtures -/

/-- A single bookmaker quoting five outcomes of a 5-way market. -/
def cexBook : Bookmaker :=
  { key := "bet365", title := "Bet365", last_update := none,
    markets := [
      { key := "outrights", outcomes := [
          { name := some "W1", price := some 10 },
          { name := some "W2", price := some 10 },
          { name := some "W3", price := some 10 },
          { name := some "W4", price := some 10 },
          { name := some "W5", price := some 10 } ] } ] }

def cexNwayEvent : Event :=
  { id := "ev1", home_team := "H", away_team := "A", commence_time := "",
    bookmakers := [cexBook] }

lemma cex_filter : filter_bookmakers defaultSettings [cexBook] = [cexBook] := by decide

lemma cex_collect : collect_nway "outrights" [cexBook] =
    [(("W1", none), [⟨"bet365", "Bet365", 10, none, "W1", none⟩]),
     (("W2", none), [⟨"bet365", "Bet365", 10, none, "W2", none⟩]),
     (("W3", none), [⟨"bet365", "Bet365", 10, none, "W3", none⟩]),
     (("W4", none), [⟨"bet365", "Bet365", 10, none, "W4", none⟩]),
     (("W5", none), [⟨"bet365", "Bet365", 10, none, "W5", none⟩])] := by decide

lemma cex_prices :
    ((([(("W1", none), [⟨"bet365", "Bet365", 10, none, "W1", none⟩]),
        (("W2", none), [⟨"bet365", "Bet365", 10, none, "W2", none⟩]),
        (("W3", none), [⟨"bet365", "Bet365", 10, none, "W3", none⟩]),
        (("W4", none), [⟨"bet365", "Bet365", 10, none, "W4", none⟩]),
        (("W5", none), [⟨"bet365", "Bet365", 10, none, "W5", none⟩])] :
          List ((String × Option ℚ) × List NEntry)).filterMap
        (fun kv => bestOf kv.2)).map (fun e => e.price)) = [10, 10, 10, 10, 10] := by
  decide

lemma cex_keys :
    ((([(("W1", none), [⟨"bet365", "Bet365", 10, none, "W1", none⟩]),
        (("W2", none), [⟨"bet365", "Bet365", 10, none, "W2", none⟩]),
        (("W3", none), [⟨"bet365", "Bet365", 10, none, "W3", none⟩]),
        (("W4", none), [⟨"bet365", "Bet365", 10, none, "W4", none⟩]),
        (("W5", none), [⟨"bet365", "Bet365", 10, none, "W5", none⟩])] :
          List ((String × Option ℚ) × List NEntry)).filterMap
        (fun kv => bestOf kv.2)).map (fun e => e.bk))
      = ["bet365", "bet365", "bet365", "bet365", "bet365"] := by
  decide

lemma cex_calc : calc_nway_arb [10, 10, 10, 10, 10]
      ["bet365", "bet365", "bet365", "bet365", "bet365"]
    = some ([20, 20, 20, 20, 20], 100) := by
  have hc : commissionRate "bet365" = 0 := by
    simp [commissionRate, lookupRate, EXCHANGE_COMMISSION]
  have hne : ¬ (([10, 10, 10, 10, 10] : List ℚ) = [] ∨
      ∃ o ∈ ([10, 10, 10, 10, 10] : List ℚ), o ≤ 1) := by
    rintro (h | ⟨o, ho, hle⟩)
    · exact absurd h (by simp)
    · simp only [List.mem_cons, List.not_mem_nil, or_false] at ho
      rcases ho with rfl | rfl | rfl | rfl | rfl <;> norm_num at hle
  have heff : effOdds [10, 10, 10, 10, 10]
      ["bet365", "bet365", "bet365", "bet365", "bet365"] = [10, 10, 10, 10, 10] := by
    norm_num [effOdds, adjust_odds_for_commission, hc]
  have hinv : inv_sum [10, 10, 10, 10, 10] = 1/2 := by norm_num [inv_sum]
  simp only [calc_nway_arb, if_neg hne, heff, hinv]
  rw [if_neg (by norm_num)]
  norm_num

lemma cex_profit : nway_arb_profit_pct [10, 10, 10, 10, 10]
      ["bet365", "bet365", "bet365", "bet365", "bet365"] = 100 := by
  have hc : commissionRate "bet365" = 0 := by
    simp [commissionRate, lookupRate, EXCHANGE_COMMISSION]
  have heff : effOdds [10, 10, 10, 10, 10]
      ["bet365", "bet365", "bet365", "bet365", "bet365"] = [10, 10, 10, 10, 10] := by
    norm_num [effOdds, adjust_odds_for_commission, hc]
  have hinv : inv_sum [10, 10, 10, 10, 10] = 1/2 := by norm_num [inv_sum]
  rw [nway_arb_profit_pct, heff, hinv]
  norm_num

/-- The record the dynamic n-way scanner emits on the fixture event: all
five legs booked at bet365. -/
def cexRec : ArbRecord :=
  { sport_key := "sport", event_id := "ev1", home := "H", away := "A",
    commence := "", market := "outrights", line := Line.lnone,
    arb_type := "5-way",
    legs := [⟨"W1", 10, 20, "Bet365", "bet365", none⟩,
             ⟨"W2", 10, 20, "Bet365", "bet365", none⟩,
             ⟨"W3", 10, 20, "Bet365", "bet365", none⟩,
             ⟨"W4", 10, 20, "Bet365", "bet365", none⟩,
             ⟨"W5", 10, 20, "Bet365", "bet365", none⟩],
    total_stake := 100, profit_pct := 100 }

lemma cex_scan_event :
    scan_event_nway defaultSettings "sport" "outrights" 5 20 cexNwayEvent
      = some cexRec := by
  have hbmks : cexNwayEvent.bookmakers = [cexBook] := rfl
  simp only [scan_event_nway, hbmks, cex_filter, cex_collect]
  rw [if_neg (by decide)]
  rw [cex_prices, cex_keys, cex_calc, cex_profit]
  decide

lemma cex_scan :
    scan_nway_dynamic defaultSettings [cexNwayEvent] "sport" "outrights" 5 20
      = [cexRec] := by
  simp [scan_nway_dynamic, List.filterMap_cons, cex_scan_event]

/-- C3 counterexample: on a concrete feed the dynamic n-way scanner, run
with the default settings, emits an opportunity whose five legs all carry
bookmaker key bet365, so the emitted record does not use pairwise-distinct
bookmakers. -/
theorem scan_nway_dynamic_shared_bookmaker_cex :
    (scan_nway_dynamic defaultSettings [cexNwayEvent] "sport" "outrights" 5 20).map
        legBooks = [["bet365", "bet365", "bet365", "bet365", "bet365"]] ∧
    ¬ List.Pairwise (fun x y => x ≠ y)
      (["bet365", "bet365", "bet365", "bet365", "bet365"] : List String) := by
  constructor
  · rw [cex_scan]
    decide
  · decide

/-- C3 amended: every record emitted by the head-to-head, 3-way, totals,
spreads, Asian handicap, double chance, BTTS, draw-no-bet and cross-line
scanners uses pairwise-distinct bookmaker keys across its legs, and every
record of the 4-way combined scanner is built from four pairwise-distinct
underlying bookmakers whose plus-joined pairs form its synthetic legs; the
dynamic n-way scanner does not enforce distinctness (see the
counterexample). -/
theorem fixed_scanners_distinct_bookmakers (s : Settings) (two_way_only : Bool)
    (evs : List Event) (sport mk : String) (mks : List String) (r : ArbRecord) :
    (r ∈ scan_h2h s two_way_only evs sport mks →
      (legBooks r).Pairwise (fun x y => x ≠ y)) ∧
    (r ∈ scan_h2h_3way s evs sport mk →
      (legBooks r).Pairwise (fun x y => x ≠ y)) ∧
    (r ∈ scan_totals s evs sport mk →
      (legBooks r).Pairwise (fun x y => x ≠ y)) ∧
    (r ∈ scan_spreads s evs sport mks →
      (legBooks r).Pairwise (fun x y => x ≠ y)) ∧
    (r ∈ scan_asian_handicap s evs sport →
      (legBooks r).Pairwise (fun x y => x ≠ y)) ∧
    (r ∈ scan_double_chance s evs sport →
      (legBooks r).Pairwise (fun x y => x ≠ y)) ∧
    (r ∈ scan_btts s evs sport →
      (legBooks r).Pairwise (fun x y => x ≠ y)) ∧
    (r ∈ scan_draw_no_bet s evs sport →
      (legBooks r).Pairwise (fun x y => x ≠ y)) ∧
    (r ∈ scan_cross_line_opportunities s evs sport →
      (legBooks r).Pairwise (fun x y => x ≠ y)) ∧
    (r ∈ scan_4way_combined_markets s evs sport →
      ∃ k1 k2 k3 k4 : String,
        k1 ≠ k2 ∧ k1 ≠ k3 ∧ k1 ≠ k4 ∧ k2 ≠ k3 ∧ k2 ≠ k4 ∧ k3 ≠ k4 ∧
        legBooks r = [k1 ++ "+" ++ k3, k1 ++ "+" ++ k4,
                      k2 ++ "+" ++ k3, k2 ++ "+" ++ k4]) := by
  refine ⟨fun h => scan_h2h_books h, ?_, ?_, fun h => scan_spreads_books h,
    fun h => scan_asian_books h, fun h => scan_dc_books h,
    fun h => scan_btts_books h, fun h => scan_dnb_books h, ?_,
    fun h => scan_4way_books h⟩
  · intro h
    obtain ⟨ev, -, n1, l1, n2, l2, n3, l3, -, e1, -, e2, -, e3, -, hne,
      s1, s2, s3, total, -, hr⟩ := scan_h2h_3way_mem h
    push_neg at hne
    obtain ⟨h12, h13, h23⟩ := hne
    subst hr
    show List.Pairwise (fun x y => x ≠ y) [e1.bk, e2.bk, e3.bk]
    refine List.Pairwise.cons ?_ (List.Pairwise.cons ?_ (List.pairwise_singleton _ _))
    · intro y hy
      rcases List.mem_cons.mp hy with rfl | hy
      · exact h12
      · rcases List.mem_singleton.mp hy with rfl
        exact h13
    · intro y hy
      rcases List.mem_singleton.mp hy with rfl
      exact h23
  · intro h
    obtain ⟨ev, -, g, -, a, -, b, -, hne, res, -, hr⟩ := scan_totals_mem h
    subst hr
    exact pairwise_two hne
  · intro h
    obtain ⟨ev, -, ov, -, un, -, hne, -, res, -, hr⟩ := scan_cross_line_mem h
    subst hr
    exact pairwise_two hne

/-- C7: profit percentages are strictly positive exactly on the inputs the
calculators accept, and every record of the embedded scanners carries a
strictly positive profit_pct computed from those same legs. -/
theorem emitted_profit_pct_positive (a b : ℚ) (ka kb : String) (odds : List ℚ)
    (keys : List String) (s : Settings) (evs : List Event) (sport mk : String)
    (mn mx : ℕ) (r : ArbRecord) :
    ((∃ res, calc_arb_equal_payout a b ka kb = some res) →
      0 < arb_profit_pct a b ka kb) ∧
    ((∃ res, calc_nway_arb odds keys = some res) →
      0 < nway_arb_profit_pct odds keys) ∧
    (r ∈ scan_totals s evs sport mk → 0 < r.profit_pct) ∧
    (r ∈ scan_h2h_3way s evs sport mk → 0 < r.profit_pct) ∧
    (r ∈ scan_cross_line_opportunities s evs sport → 0 < r.profit_pct) ∧
    (r ∈ scan_nway_dynamic s evs sport mk mn mx → 0 < r.profit_pct) := by
  refine ⟨fun hh => pair_profit_pos hh.choose_spec,
    fun hh => nway_profit_pos hh.choose_spec, ?_, ?_, ?_, ?_⟩
  · intro h
    obtain ⟨ev, -, g, -, a', -, b', -, -, res, hcalc, hr⟩ := scan_totals_mem h
    subst hr
    exact pair_profit_pos hcalc
  · intro h
    obtain ⟨ev, -, n1, l1, n2, l2, n3, l3, -, e1, -, e2, -, e3, -, -,
      s1, s2, s3, total, hcalc, hr⟩ := scan_h2h_3way_mem h
    subst hr
    exact nway_profit_pos hcalc
  · intro h
    obtain ⟨ev, -, ov, -, un, -, -, -, res, hcalc, hr⟩ := scan_cross_line_mem h
    subst hr
    exact pair_profit_pos hcalc
  · intro h
    obtain ⟨ev, -, stakes, total, hcalc, hprof⟩ := scan_nway_dynamic_mem h
    rw [hprof]
    exact nway_profit_pos hcalc

/-- A placeholder record used only to instantiate record-quantified
theorems at a concrete point. -/
def dummyRec : ArbRecord :=
  { sport_key := "", event_id := "", home := "", away := "", commence := "",
    market := "", line := Line.lnone, arb_type := "", legs := [],
    total_stake := 0, profit_pct := 0 }

/-- C7 witness: the first conjunct applied to the concrete successful pair
3 / 3 with no commission, giving a strictly positive profit percentage. -/
theorem emitted_profit_pct_positive_witness : 0 < arb_profit_pct 3 3 "" "" :=
  (emitted_profit_pct_positive 3 3 "" "" [] [] defaultSettings [] "" "" 0 0
      dummyRec).1
    ⟨(50, 50, 100), by
      have hc : commissionRate "" = 0 := by
        simp [commissionRate, lookupRate, EXCHANGE_COMMISSION]
      norm_num [calc_arb_equal_payout, adjust_odds_for_commission, hc]⟩

/-- Totals fixture: an Over 3 quote at bet365 and an Under 3 quote at
pinnacle, both at odds 3. -/
def tBook1 : Bookmaker :=
  { key := "bet365", title := "Bet365", last_update := none,
    markets := [
      { key := "totals", outcomes := [
          { name := some "Over", price := some 3, point := some 3 } ] } ] }

def tBook2 : Bookmaker :=
  { key := "pinnacle", title := "Pinnacle", last_update := none,
    markets := [
      { key := "totals", outcomes := [
          { name := some "Under", price := some 3, point := some 3 } ] } ] }

def tEvent : Event :=
  { id := "ev2", home_team := "H", away_team := "A", commence_time := "",
    bookmakers := [tBook1, tBook2] }

lemma t_filter : filter_bookmakers defaultSettings [tBook1, tBook2]
    = [tBook1, tBook2] := by decide

lemma t_collect : collect_totals "totals" [tBook1, tBook2]
    = [(3, ([⟨"bet365", "Bet365", 3, none⟩], [⟨"pinnacle", "Pinnacle", 3, none⟩]))] := by
  decide

lemma t_pair : calc_arb_equal_payout 3 3 "bet365" "pinnacle"
    = some (50, 50, 100) := by
  have h1 : commissionRate "bet365" = 0 := by
    simp [commissionRate, lookupRate, EXCHANGE_COMMISSION]
  have h2 : commissionRate "pinnacle" = 0 := by
    simp [commissionRate, lookupRate, EXCHANGE_COMMISSION]
  norm_num [calc_arb_equal_payout, adjust_odds_for_commission, h1, h2]

lemma t_profit : arb_profit_pct 3 3 "bet365" "pinnacle" = 50 := by
  have h1 : commissionRate "bet365" = 0 := by
    simp [commissionRate, lookupRate, EXCHANGE_COMMISSION]
  have h2 : commissionRate "pinnacle" = 0 := by
    simp [commissionRate, lookupRate, EXCHANGE_COMMISSION]
  norm_num [arb_profit_pct, adjust_odds_for_commission, h1, h2]

/-- The record scan_totals emits on the totals fixture. -/
def tRec : ArbRecord :=
  { sport_key := "sport", event_id := "ev2", home := "H", away := "A",
    commence := "", market := "totals", line := Line.lnum 3,
    arb_type := "2-way",
    legs := [⟨"Over", 3, 50, "Bet365", "bet365", none⟩,
             ⟨"Under", 3, 50, "Pinnacle", "pinnacle", none⟩],
    total_stake := 100, profit_pct := 50 }

lemma t_scan : scan_totals defaultSettings [tEvent] "sport" "totals" = [tRec] := by
  have hbm : tEvent.bookmakers = [tBook1, tBook2] := rfl
  simp only [scan_totals, hbm, t_filter, t_collect, List.flatMap_cons,
    List.flatMap_nil, List.append_nil, t_pair, t_profit]
  norm_num [List.filterMap_cons, List.filterMap_nil, t_pair, t_profit, tRec, tEvent]
  rw [if_neg (show ¬ "bet365" = "pinnacle" by decide)]

/-- C3 witness: the amended theorem applied to the record the totals scanner
emits on the totals fixture, whose two legs use bet365 and pinnacle. -/
theorem fixed_scanners_distinct_bookmakers_witness :
    (legBooks tRec).Pairwise (fun x y => x ≠ y) :=
  (fixed_scanners_distinct_bookmakers defaultSettings false [tEvent] "sport"
      "totals" [] tRec).2.2.1
    (by rw [t_scan]; exact List.mem_singleton.mpr rfl)

/-- Cross-line fixture: Over 3 at odds 3 from bet365 in totals, Under 4 at
odds 3 from pinnacle in alternate_totals. -/
def cBook1 : Bookmaker :=
  { key := "bet365", title := "Bet365", last_update := none,
    markets := [
      { key := "totals", outcomes := [
          { name := some "Over", price := some 3, point := some 3 } ] } ] }

def cBook2 : Bookmaker :=
  { key := "pinnacle", title := "Pinnacle", last_update := none,
    markets := [
      { key := "alternate_totals", outcomes := [
          { name := some "Under", price := some 3, point := some 4 } ] } ] }

def cEvent : Event :=
  { id := "ev3", home_team := "H", away_team := "A", commence_time := "",
    bookmakers := [cBook1, cBook2] }

lemma c_overs : cross_overs defaultSettings cEvent
    = [⟨3, 3, "bet365", "Bet365", none⟩] := by decide

lemma c_unders : cross_unders defaultSettings cEvent
    = [⟨4, 3, "pinnacle", "Pinnacle", none⟩] := by decide

/-- The record the cross-line scanner emits on the cross-line fixture: gap
1, hence a scalp. -/
def cRec : ArbRecord :=
  { sport_key := "sport", event_id := "ev3", home := "H", away := "A",
    commence := "", market := "cross_line_totals", line := Line.lcross 3 4,
    arb_type := "2-way-middle",
    legs := [⟨"Over", 3, 50, "Bet365", "bet365", none⟩,
             ⟨"Under", 3, 50, "Pinnacle", "pinnacle", none⟩],
    total_stake := 100, profit_pct := 50, gap := some 1,
    mid_type := some "scalp" }

lemma c_scan : scan_cross_line_opportunities defaultSettings [cEvent] "sport"
    = [cRec] := by
  simp only [scan_cross_line_opportunities, c_overs, c_unders, List.flatMap_cons,
    List.flatMap_nil, List.append_nil, List.filterMap_cons, List.filterMap_nil,
    t_pair, t_profit]
  norm_num [cRec, cEvent]
  rw [if_neg (show ¬ "bet365" = "pinnacle" by decide)]

/- ### Provenance of cross-line quotes -/

lemma cross_overs_mem {s : Settings} {ev : Event} {t : TEntry}
    (h : t ∈ cross_overs s ev) :
    ∃ bm ∈ filter_bookmakers s ev.bookmakers, ∃ mkt ∈ bm.markets,
      (mkt.key = "totals" ∨ mkt.key = "alternate_totals") ∧
      ∃ o ∈ mkt.outcomes, o.name.getD "" = "Over" ∧ o.point = some t.line ∧
        o.price = some t.price ∧ t.bk = bm.key ∧ t.btitle = bm.title := by
  simp only [cross_overs, List.mem_flatMap, List.mem_filter, List.mem_filterMap] at h
  obtain ⟨bm, hbm, mkt, ⟨hmkt, hkey⟩, o, ho, hfo⟩ := h
  refine ⟨bm, hbm, mkt, hmkt, ?_, o, ho, ?_⟩
  · simpa using hkey
  · simp only [Option.bind_eq_some] at hfo
    obtain ⟨pt, hpt, pr, hpr, hfo⟩ := hfo
    split at hfo
    · next hname =>
      simp only [Option.some.injEq] at hfo
      subst hfo
      exact ⟨hname, hpt, hpr, rfl, rfl⟩
    · exact absurd hfo (by simp)

lemma cross_unders_mem {s : Settings} {ev : Event} {t : TEntry}
    (h : t ∈ cross_unders s ev) :
    ∃ bm ∈ filter_bookmakers s ev.bookmakers, ∃ mkt ∈ bm.markets,
      (mkt.key = "totals" ∨ mkt.key = "alternate_totals") ∧
      ∃ o ∈ mkt.outcomes, o.name.getD "" = "Under" ∧ o.point = some t.line ∧
        o.price = some t.price ∧ t.bk = bm.key ∧ t.btitle = bm.title := by
  simp only [cross_unders, List.mem_flatMap, List.mem_filter, List.mem_filterMap] at h
  obtain ⟨bm, hbm, mkt, ⟨hmkt, hkey⟩, o, ho, hfo⟩ := h
  refine ⟨bm, hbm, mkt, hmkt, ?_, o, ho, ?_⟩
  · simpa using hkey
  · simp only [Option.bind_eq_some] at hfo
    obtain ⟨pt, hpt, pr, hpr, hfo⟩ := hfo
    split at hfo
    · next hname =>
      simp only [Option.some.injEq] at hfo
      subst hfo
      exact ⟨hname, hpt, hpr, rfl, rfl⟩
    · exact absurd hfo (by simp)

/-- C9: every record of the cross-line scanner pairs an Over quote at line
L1 with an Under quote at line L2 from a different bookmaker with L2
strictly above L1, both quotes drawn from a totals or alternate_totals
market of the event; the pair is accepted only when the pairwise calculator
succeeds on its two odds, and the type field is middle exactly when the gap
L2 - L1 exceeds 1 and scalp otherwise. -/
theorem scan_cross_line_correct (s : Settings) (evs : List Event) (sport : String)
    (r : ArbRecord) (h : r ∈ scan_cross_line_opportunities s evs sport) :
    ∃ ev ∈ evs, ∃ ov ∈ cross_overs s ev, ∃ un ∈ cross_unders s ev,
      ov.bk ≠ un.bk ∧ ov.line < un.line ∧
      (∃ res, calc_arb_equal_payout ov.price un.price ov.bk un.bk = some res) ∧
      r.line = Line.lcross ov.line un.line ∧
      r.gap = some (un.line - ov.line) ∧
      legBooks r = [ov.bk, un.bk] ∧
      (r.mid_type = some "middle" ↔ 1 < un.line - ov.line) ∧
      (r.mid_type = some "scalp" ↔ ¬ 1 < un.line - ov.line) ∧
      (∃ bm ∈ filter_bookmakers s ev.bookmakers, ∃ mkt ∈ bm.markets,
        (mkt.key = "totals" ∨ mkt.key = "alternate_totals") ∧
        ∃ o ∈ mkt.outcomes, o.name.getD "" = "Over" ∧ o.point = some ov.line ∧
          o.price = some ov.price ∧ ov.bk = bm.key ∧ ov.btitle = bm.title) ∧
      (∃ bm ∈ filter_bookmakers s ev.bookmakers, ∃ mkt ∈ bm.markets,
        (mkt.key = "totals" ∨ mkt.key = "alternate_totals") ∧
        ∃ o ∈ mkt.outcomes, o.name.getD "" = "Under" ∧ o.point = some un.line ∧
          o.price = some un.price ∧ un.bk = bm.key ∧ un.btitle = bm.title) := by
  obtain ⟨ev, hev, ov, hov, un, hun, hne, hlt, res, hcalc, hr⟩ := scan_cross_line_mem h
  refine ⟨ev, hev, ov, hov, un, hun, hne, hlt, ⟨res, hcalc⟩, ?_, ?_, ?_, ?_, ?_,
    cross_overs_mem hov, cross_unders_mem hun⟩
  · rw [hr]
  · rw [hr]
  · rw [hr]
    rfl
  · rw [hr]
    by_cases hgap : 1 < un.line - ov.line
    · simp [hgap]
    · simp only [if_neg hgap]
      constructor
      · intro hcon
        simp only [Option.some.injEq] at hcon
        exact absurd hcon (by decide)
      · intro hcon
        exact absurd hcon hgap
  · rw [hr]
    by_cases hgap : 1 < un.line - ov.line
    · simp only [if_pos hgap]
      constructor
      · intro hcon
        simp only [Option.some.injEq] at hcon
        exact absurd hcon (by decide)
      · intro hcon
        exact absurd hgap hcon
    · simp [hgap]

/-- C9 witness: the theorem applied to the record the cross-line scanner
emits on the concrete fixture (Over 3 from bet365, Under 4 from pinnacle,
gap 1, flagged scalp). -/
theorem scan_cross_line_correct_witness :
    ∃ ev ∈ [cEvent], ∃ ov ∈ cross_overs defaultSettings ev,
      ∃ un ∈ cross_unders defaultSettings ev,
      ov.bk ≠ un.bk ∧ ov.line < un.line ∧
      (∃ res, calc_arb_equal_payout ov.price un.price ov.bk un.bk = some res) ∧
      cRec.line = Line.lcross ov.line un.line ∧
      cRec.gap = some (un.line - ov.line) ∧
      legBooks cRec = [ov.bk, un.bk] ∧
      (cRec.mid_type = some "middle" ↔ 1 < un.line - ov.line) ∧
      (cRec.mid_type = some "scalp" ↔ ¬ 1 < un.line - ov.line) ∧
      (∃ bm ∈ filter_bookmakers defaultSettings ev.bookmakers, ∃ mkt ∈ bm.markets,
        (mkt.key = "totals" ∨ mkt.key = "alternate_totals") ∧
        ∃ o ∈ mkt.outcomes, o.name.getD "" = "Over" ∧ o.point = some ov.line ∧
          o.price = some ov.price ∧ ov.bk = bm.key ∧ ov.btitle = bm.title) ∧
      (∃ bm ∈ filter_bookmakers defaultSettings ev.bookmakers, ∃ mkt ∈ bm.markets,
        (mkt.key = "totals" ∨ mkt.key = "alternate_totals") ∧
        ∃ o ∈ mkt.outcomes, o.name.getD "" = "Under" ∧ o.point = some un.line ∧
          o.price = some un.price ∧ un.bk = bm.key ∧ un.btitle = bm.title) :=
  scan_cross_line_correct defaultSettings [cEvent] "sport" cRec
    (by rw [c_scan]; exact List.mem_singleton.mpr rfl)

/- ### The aggregation tail of main (band filter, dedup, sort) -/

/-- The deduplication key of main: (event_id, market, line, arb_type). -/
def dedup_key (r : ArbRecord) : String × String × Line × String :=
  (r.event_id, r.market, r.line, r.arb_type)

/-- One step of the by_key dictionary loop of main: a new key is appended,
an existing entry is replaced only by a strictly higher profit. -/
def dedupe_step (m : List ((String × String × Line × String) × ArbRecord))
    (a : ArbRecord) : List ((String × String × Line × String) × ArbRecord) :=
  if ∃ kv ∈ m, kv.1 = dedup_key a then
    m.map (fun kv =>
      if kv.1 = dedup_key a ∧ kv.2.profit_pct < a.profit_pct then (kv.1, a) else kv)
  else m ++ [(dedup_key a, a)]

/-- The deduplication pass of main, in first-seen key order. -/
def dedupe (l : List ArbRecord) : List ArbRecord :=
  (l.foldl dedupe_step []).map (fun kv => kv.2)

/-- The inclusive profit band filter of main. -/
def band_filter (minP maxP : ℚ) (l : List ArbRecord) : List ArbRecord :=
  l.filter (fun a => decide (minP ≤ a.profit_pct ∧ a.profit_pct ≤ maxP))

/-- Descending profit order used for the final sort. -/
def profit_desc (a b : ArbRecord) : Prop := b.profit_pct ≤ a.profit_pct

instance : DecidableRel profit_desc :=
  fun _ _ => inferInstanceAs (Decidable (_ ≤ _))

instance : IsTotal ArbRecord profit_desc :=
  ⟨fun a b => le_total b.profit_pct a.profit_pct⟩

instance : IsTrans ArbRecord profit_desc :=
  ⟨fun _ _ _ hab hbc => le_trans hbc hab⟩

/-- The final sort of main by profit_pct descending. -/
def sort_desc (l : List ArbRecord) : List ArbRecord :=
  List.insertionSort profit_desc l

/-- The aggregation tail of main as the code executes it: band filter
first, then deduplication (unless disabled), then the descending sort.
The stake rescaling step between the last two is the identity under the
default scale of 1 and does not touch profit_pct, and is omitted. -/
def aggregate (minP maxP : ℚ) (no_dedupe : Bool) (l : List ArbRecord) :
    List ArbRecord :=
  let l1 := band_filter minP maxP l
  let l2 := if no_dedupe then l1 else dedupe l1
  sort_desc l2

/-- Modelled from the spec: the aggregation order sentence 4.6 describes,
deduplication first and the band filter applied after it.  Used only to
compare against the aggregate function translated from the code. -/
def aggregate_spec_order (minP maxP : ℚ) (no_dedupe : Bool) (l : List ArbRecord) :
    List ArbRecord :=
  sort_desc (band_filter minP maxP (if no_dedupe then l else dedupe l))

/-- Two records sharing one dedup key, profits 50 and 5. -/
def dRec1 : ArbRecord :=
  { sport_key := "", event_id := "e", home := "", away := "", commence := "",
    market := "m", line := Line.lnone, arb_type := "2-way", legs := [],
    total_stake := 100, profit_pct := 50 }

def dRec2 : ArbRecord :=
  { sport_key := "", event_id := "e", home := "", away := "", commence := "",
    market := "m", line := Line.lnone, arb_type := "2-way", legs := [],
    total_stake := 100, profit_pct := 5 }

lemma aggregate_cex_eval : aggregate 0 10 false [dRec1, dRec2] = [dRec2] := by
  decide

lemma aggregate_spec_order_cex_eval :
    aggregate_spec_order 0 10 false [dRec1, dRec2] = [] := by
  decide

/- ### Properties of the dedup fold -/

lemma dedupe_step_mem {m : List ((String × String × Line × String) × ArbRecord)}
    {a : ArbRecord} {kv} (h : kv ∈ dedupe_step m a) : kv ∈ m ∨ kv.2 = a := by
  unfold dedupe_step at h
  split at h
  · rw [List.mem_map] at h
    obtain ⟨kv0, hkv0, heq⟩ := h
    by_cases hP : kv0.1 = dedup_key a ∧ kv0.2.profit_pct < a.profit_pct
    · rw [if_pos hP] at heq
      right
      rw [← heq]
    · rw [if_neg hP] at heq
      left
      rw [← heq]
      exact hkv0
  · rcases List.mem_append.mp h with h | h
    · left; exact h
    · rcases List.mem_singleton.mp h with rfl
      right; rfl

lemma foldl_dedupe_mem {l : List ArbRecord}
    {m : List ((String × String × Line × String) × ArbRecord)} {kv}
    (h : kv ∈ l.foldl dedupe_step m) : kv ∈ m ∨ kv.2 ∈ l := by
  induction l generalizing m with
  | nil => left; exact h
  | cons hd tl ih =>
    rcases ih h with h1 | h1
    · rcases dedupe_step_mem h1 with h2 | h2
      · left; exact h2
      · right; rw [h2]; exact List.mem_cons_self _ _
    · right; exact List.mem_cons_of_mem _ h1

lemma dedupe_step_keyed {m : List ((String × String × Line × String) × ArbRecord)}
    {a : ArbRecord} (hm : ∀ kv ∈ m, kv.1 = dedup_key kv.2) :
    ∀ kv ∈ dedupe_step m a, kv.1 = dedup_key kv.2 := by
  intro kv h
  unfold dedupe_step at h
  split at h
  · rw [List.mem_map] at h
    obtain ⟨kv0, hkv0, heq⟩ := h
    by_cases hP : kv0.1 = dedup_key a ∧ kv0.2.profit_pct < a.profit_pct
    · rw [if_pos hP] at heq
      rw [← heq]
      exact hP.1
    · rw [if_neg hP] at heq
      rw [← heq]
      exact hm kv0 hkv0
  · rcases List.mem_append.mp h with h | h
    · exact hm kv h
    · rcases List.mem_singleton.mp h with rfl
      rfl

lemma foldl_dedupe_keyed {l : List ArbRecord}
    {m : List ((String × String × Line × String) × ArbRecord)}
    (hm : ∀ kv ∈ m, kv.1 = dedup_key kv.2) :
    ∀ kv ∈ l.foldl dedupe_step m, kv.1 = dedup_key kv.2 := by
  induction l generalizing m with
  | nil => exact hm
  | cons hd tl ih => exact ih (dedupe_step_keyed hm)

lemma dedupe_step_fst_nodup
    {m : List ((String × String × Line × String) × ArbRecord)} {a : ArbRecord}
    (hm : (m.map Prod.fst).Nodup) :
    ((dedupe_step m a).map Prod.fst).Nodup := by
  unfold dedupe_step
  split
  · next hex =>
    have : (m.map (fun kv =>
        if kv.1 = dedup_key a ∧ kv.2.profit_pct < a.profit_pct then (kv.1, a)
        else kv)).map Prod.fst = m.map Prod.fst := by
      rw [List.map_map]
      apply List.map_congr_left
      intro kv _
      by_cases hP : kv.1 = dedup_key a ∧ kv.2.profit_pct < a.profit_pct
      · simp [hP]
      · simp [if_neg hP]
    rw [this]
    exact hm
  · next hex =>
    rw [List.map_append]
    refine hm.append (List.nodup_singleton _) ?_
    intro k hk1 hk2
    rcases List.mem_singleton.mp hk2 with rfl
    rw [List.mem_map] at hk1
    obtain ⟨kv, hkv, hfst⟩ := hk1
    exact hex ⟨kv, hkv, hfst⟩

lemma foldl_dedupe_fst_nodup {l : List ArbRecord}
    {m : List ((String × String × Line × String) × ArbRecord)}
    (hm : (m.map Prod.fst).Nodup) :
    (((l.foldl dedupe_step m)).map Prod.fst).Nodup := by
  induction l generalizing m with
  | nil => exact hm
  | cons hd tl ih => exact ih (dedupe_step_fst_nodup hm)

/-- A record q is covered by the dictionary state when some entry carries
its key with at least its profit. -/
def covered (m : List ((String × String × Line × String) × ArbRecord))
    (q : ArbRecord) : Prop :=
  ∃ kv ∈ m, kv.1 = dedup_key q ∧ q.profit_pct ≤ kv.2.profit_pct

lemma dedupe_step_covers_self
    (m : List ((String × String × Line × String) × ArbRecord)) (a : ArbRecord) :
    covered (dedupe_step m a) a := by
  unfold dedupe_step
  split
  · next hex =>
    obtain ⟨kv0, hkv0, hkey⟩ := hex
    by_cases hp : kv0.2.profit_pct < a.profit_pct
    · refine ⟨(kv0.1, a), List.mem_map.mpr ⟨kv0, hkv0, ?_⟩, hkey, le_refl _⟩
      dsimp only
      rw [if_pos ⟨hkey, hp⟩]
    · refine ⟨kv0, List.mem_map.mpr ⟨kv0, hkv0, ?_⟩, hkey, not_lt.mp hp⟩
      dsimp only
      rw [if_neg (by rintro ⟨-, hcon⟩; exact hp hcon)]
  · exact ⟨(dedup_key a, a),
      List.mem_append.mpr (Or.inr (List.mem_singleton.mpr rfl)), rfl, le_refl _⟩

lemma dedupe_step_covers_mono
    {m : List ((String × String × Line × String) × ArbRecord)} {a q : ArbRecord}
    (h : covered m q) : covered (dedupe_step m a) q := by
  obtain ⟨kv, hkv, hkey, hle⟩ := h
  unfold dedupe_step
  split
  · by_cases hP : kv.1 = dedup_key a ∧ kv.2.profit_pct < a.profit_pct
    · refine ⟨(kv.1, a), List.mem_map.mpr ⟨kv, hkv, ?_⟩, hkey,
        le_trans hle (le_of_lt hP.2)⟩
      dsimp only
      rw [if_pos hP]
    · refine ⟨kv, List.mem_map.mpr ⟨kv, hkv, ?_⟩, hkey, hle⟩
      dsimp only
      rw [if_neg hP]
  · exact ⟨kv, List.mem_append.mpr (Or.inl hkv), hkey, hle⟩

lemma foldl_dedupe_covered {l : List ArbRecord}
    {m : List ((String × String × Line × String) × ArbRecord)} {q : ArbRecord}
    (h : q ∈ l ∨ covered m q) : covered (l.foldl dedupe_step m) q := by
  induction l generalizing m with
  | nil =>
    rcases h with h | h
    · exact absurd h (List.not_mem_nil _)
    · exact h
  | cons hd tl ih =>
    rcases h with h | h
    · rcases List.mem_cons.mp h with rfl | h
      · exact ih (Or.inr (dedupe_step_covers_self m q))
      · exact ih (Or.inl h)
    · exact ih (Or.inr (dedupe_step_covers_mono h))

lemma dedupe_sub {l : List ArbRecord} {r : ArbRecord} (h : r ∈ dedupe l) :
    r ∈ l := by
  unfold dedupe at h
  rw [List.mem_map] at h
  obtain ⟨kv, hkv, rfl⟩ := h
  rcases foldl_dedupe_mem hkv with h | h
  · exact absurd h (List.not_mem_nil _)
  · exact h

lemma dedupe_max {l : List ArbRecord} {r q : ArbRecord} (hr : r ∈ dedupe l)
    (hq : q ∈ l) (hk : dedup_key q = dedup_key r) :
    q.profit_pct ≤ r.profit_pct := by
  unfold dedupe at hr
  rw [List.mem_map] at hr
  obtain ⟨kv, hkv, rfl⟩ := hr
  obtain ⟨kv2, hkv2, hkey2, hle2⟩ :=
    @foldl_dedupe_covered l [] q (Or.inl hq)
  have hkeyed := @foldl_dedupe_keyed l [] (by simp) kv hkv
  have hfst : kv2.1 = kv.1 := by rw [hkey2, hk, hkeyed]
  have hnodup := @foldl_dedupe_fst_nodup l [] (by simp)
  have heq : kv2 = kv := List.inj_on_of_nodup_map hnodup hkv2 hkv hfst
  rw [heq] at hle2
  exact hle2

lemma dedupe_covers {l : List ArbRecord} {q : ArbRecord} (hq : q ∈ l) :
    ∃ r ∈ dedupe l, dedup_key r = dedup_key q := by
  obtain ⟨kv, hkv, hkey, -⟩ :=
    @foldl_dedupe_covered l [] q (Or.inl hq)
  refine ⟨kv.2, List.mem_map_of_mem _ hkv, ?_⟩
  rw [← @foldl_dedupe_keyed l [] (by simp) kv hkv]
  exact hkey

lemma dedupe_keys_nodup (l : List ArbRecord) :
    ((dedupe l).map dedup_key).Nodup := by
  unfold dedupe
  rw [List.map_map]
  have : (l.foldl dedupe_step []).map (dedup_key ∘ fun kv => kv.2)
      = (l.foldl dedupe_step []).map Prod.fst :=
    List.map_congr_left fun kv hkv =>
      (@foldl_dedupe_keyed l [] (by simp) kv hkv).symm
  rw [this]
  exact foldl_dedupe_fst_nodup (by simp)

lemma band_filter_mem {minP maxP : ℚ} {l : List ArbRecord} {r : ArbRecord} :
    r ∈ band_filter minP maxP l ↔
      r ∈ l ∧ minP ≤ r.profit_pct ∧ r.profit_pct ≤ maxP := by
  simp [band_filter, List.mem_filter, and_assoc]

/-- C6 counterexample: on two records sharing one dedup key with profits 50
and 5 and band [0, 10], the code (filter before dedup) keeps the 5-profit
record while the claimed order (filter after dedup) returns nothing, so the
band filter is not applied after deduplication. -/
theorem aggregate_band_order_cex :
    aggregate 0 10 false [dRec1, dRec2] = [dRec2] ∧
    aggregate_spec_order 0 10 false [dRec1, dRec2] = [] ∧
    aggregate 0 10 false [dRec1, dRec2]
      ≠ aggregate_spec_order 0 10 false [dRec1, dRec2] := by
  refine ⟨aggregate_cex_eval, aggregate_spec_order_cex_eval, ?_⟩
  rw [aggregate_cex_eval, aggregate_spec_order_cex_eval]
  simp

/-- C6 amended: with deduplication enabled the aggregator first applies the
inclusive profit band filter, then groups by (event_id, market, line,
arb_type) keeping only the highest-profit record of each group, and sorts
the result by profit_pct descending: every result is an in-band input
record, it is maximal among the in-band inputs of its key, every in-band
input key survives, keys are pairwise distinct, and the output is sorted. -/
theorem aggregate_correct (minP maxP : ℚ) (l : List ArbRecord) :
    (∀ r ∈ aggregate minP maxP false l,
      r ∈ l ∧ minP ≤ r.profit_pct ∧ r.profit_pct ≤ maxP) ∧
    (∀ r ∈ aggregate minP maxP false l, ∀ q ∈ l,
      dedup_key q = dedup_key r → minP ≤ q.profit_pct → q.profit_pct ≤ maxP →
        q.profit_pct ≤ r.profit_pct) ∧
    (∀ q ∈ l, minP ≤ q.profit_pct → q.profit_pct ≤ maxP →
      ∃ r ∈ aggregate minP maxP false l, dedup_key r = dedup_key q) ∧
    ((aggregate minP maxP false l).map dedup_key).Nodup ∧
    (aggregate minP maxP false l).Pairwise profit_desc := by
  have hagg : aggregate minP maxP false l
      = sort_desc (dedupe (band_filter minP maxP l)) := rfl
  have hperm : List.Perm (sort_desc (dedupe (band_filter minP maxP l)))
      (dedupe (band_filter minP maxP l)) :=
    List.perm_insertionSort profit_desc _
  refine ⟨?_, ?_, ?_, ?_, ?_⟩
  · intro r hr
    rw [hagg] at hr
    have hr2 : r ∈ dedupe (band_filter minP maxP l) := hperm.mem_iff.mp hr
    have hr3 := dedupe_sub hr2
    exact band_filter_mem.mp hr3
  · intro r hr q hq hk h1 h2
    rw [hagg] at hr
    have hr2 : r ∈ dedupe (band_filter minP maxP l) := hperm.mem_iff.mp hr
    exact dedupe_max hr2 (band_filter_mem.mpr ⟨hq, h1, h2⟩) hk
  · intro q hq h1 h2
    obtain ⟨r, hr, hk⟩ := dedupe_covers (band_filter_mem.mpr ⟨hq, h1, h2⟩)
    exact ⟨r, hagg ▸ hperm.mem_iff.mpr hr, hk⟩
  · rw [hagg]
    exact (List.Perm.nodup_iff (hperm.map dedup_key)).mpr
      (dedupe_keys_nodup (band_filter minP maxP l))
  · rw [hagg]
    exact List.sorted_insertionSort profit_desc _

/-- C6 witness: the first conjunct of the amended theorem applied to the
concrete two-record input, showing the surviving record is in band. -/
theorem aggregate_correct_witness :
    dRec2 ∈ [dRec1, dRec2] ∧ (0 : ℚ) ≤ dRec2.profit_pct ∧
      dRec2.profit_pct ≤ 10 :=
  (aggregate_correct 0 10 [dRec1, dRec2]).1 dRec2
    (by rw [aggregate_cex_eval]; exact List.mem_singleton.mpr rfl)

end ArbScanner
